import Mathlib

/-!
# Verification of the incremental Mech-event synchronization engine

Shallow embedding of `scripts/mech_events.py`: the chunked block-range
scanner, the per-(sender, contract, eventType) checkpoint cursors, the
versioned on-disk store with its rate-limited writer, and the
per-contract failure envelope.  Python dictionaries are modelled as
insertion-ordered association lists (first occurrence wins on lookup,
in-place update on assignment, append on fresh insertion), matching
CPython semantics.  The remote provider (web3) is modelled as an
abstract `Chain` record supplying the latest block height, per-range
log queries, block timestamps and best-effort IPFS content fetches.
-/

set_option maxHeartbeats 1000000

/-- Association-list lookup: value at the first occurrence of the key
(CPython dict lookup). -/
def alist_get {β : Type} : List (String × β) → String → Option β
  | [], _ => none
  | (k', v) :: rest, k => if k' = k then some v else alist_get rest k

/-- Association-list assignment `d[k] = v`: update in place at the first
occurrence of the key, append at the end when the key is fresh
(CPython dict assignment, which preserves insertion order). -/
def alist_set {β : Type} : List (String × β) → String → β → List (String × β)
  | [], k, v => [(k, v)]
  | (k', v') :: rest, k, v =>
      if k' = k then (k, v) :: rest else (k', v') :: alist_set rest k v

/-- CPython `dict.update`: fold the entries of the second dict into the
first by assignment. -/
def alist_update {β : Type} (d : List (String × β)) (entries : List (String × β)) :
    List (String × β) :=
  entries.foldl (fun acc kv => alist_set acc kv.1 kv.2) d

-- Constants of scripts/mech_events.py.

def BLOCKS_CHUNK_SIZE : Int := 5000

def EXCLUDED_BLOCKS_THRESHOLD : Int := 2 * BLOCKS_CHUNK_SIZE

def NUM_EXCLUDED_BLOCKS : Int := 10

def MECH_EVENTS_DB_VERSION : Nat := 2

def DEFAULT_MECH_FEE : Nat := 10000000000000000

def MINIMUM_WRITE_FILE_DELAY : Int := 20

def IPFS_ADDRESS : String := "https://gateway.autonolas.tech/ipfs/"

def CID_PREF : String := "f01701220"

/-- The configured (Mech contract address, deployment block) pairs;
addresses are the checksummed forms produced by `to_checksum_address`,
treated here as opaque identifiers. -/
def MECH_CONTRACT_ADDRESSES : List (String × Int) :=
  [("0xFf82123dFB52ab75C417195c5fDB87630145ae81", 27939217),
   ("0x77af31De935740567Cf4fF1986D04B2c964A786a", 30663133)]

/-- A raw provider log entry, as consumed by `MechRequest.__init__`:
the event name, the argument bag (`requestId`, `data` already
hex-rendered, `sender`), the transaction hash and the block number. -/
structure RawLogEntry where
  event : String
  requestId : String
  data : String
  sender : String
  transactionHash : String
  blockNumber : Int
deriving DecidableEq, Repr

/-- The stored per-event record: the `__dict__` of a fully initialized
`MechRequest`, field for field in Python attribute-insertion order. -/
structure MechRequestRecord where
  event_id : String
  data : String
  sender : String
  transaction_hash : String
  block_number : Int
  utc_timestamp : Int
  ipfs_link : String
  ipfs_contents : List (String × String)
  request_id : String
  fee : Nat
deriving DecidableEq, Repr

/-- An event-type cursor: the `last_processed_block` checkpoint plus the
`mech_events` dictionary keyed by event id.  The nested-`get` read path
of the source defaults a missing cursor to block `0` and no events. -/
structure EventTypeCursor where
  last_processed_block : Int
  mech_events : List (String × MechRequestRecord)
deriving DecidableEq, Repr

/-- The in-memory checkpoint document: `db_version` plus the
sender → contract → event-name → cursor nesting of dictionaries. -/
structure MechEventsData where
  db_version : Nat
  senders : List (String × List (String × List (String × EventTypeCursor)))
deriving DecidableEq, Repr

/-- The abstract remote provider consumed by the scanner: latest block
height, per-(contract, event-name) log queries over an inclusive block
range, block timestamps, and the best-effort IPFS gateway. -/
structure Chain where
  latestBlock : Int
  fetchLogs : String → String → Int → Int → List RawLogEntry
  blockTimestamp : Int → Int
  ipfsFetch : String → Option (List (String × String))

/-- MechBaseEvent._populate_ipfs_contents: try `url/metadata.json` then
`url`; each successful fetch overwrites the link and contents, each
failure is swallowed, so the last reachable URL wins and total failure
leaves the empty link and contents. -/
def populate_ipfs_contents (fetch : String → Option (List (String × String)))
    (data : String) : String × List (String × String) :=
  let url := IPFS_ADDRESS ++ CID_PREF ++ data
  [url ++ "/metadata.json", url].foldl
    (fun acc u =>
      match fetch u with
      | some contents => (u, contents)
      | none => acc)
    ("", [])

def mechRequestEventName : String := "Request"

/-- The record a successful `MechRequest.__init__` stores: base fields
from the entry, `request_id` aliasing `event_id`, and the hard-coded
`DEFAULT_MECH_FEE` (the source's TODO: the fee is not extracted from the
transaction). -/
def mechRequestRecord (fetch : String → Option (List (String × String)))
    (event : RawLogEntry) (utc_timestamp : Int) : MechRequestRecord :=
  let lc := populate_ipfs_contents fetch event.data
  { event_id := event.requestId
    data := event.data
    sender := event.sender
    transaction_hash := event.transactionHash
    block_number := event.blockNumber
    utc_timestamp := utc_timestamp
    ipfs_link := lc.1
    ipfs_contents := lc.2
    request_id := event.requestId
    fee := DEFAULT_MECH_FEE }

/-- MechRequest.__init__: raises ValueError when the entry's event name
differs from the class attribute `event_name = "Request"`, otherwise
builds the stored record. -/
def mechRequestInit (fetch : String → Option (List (String × String)))
    (event : RawLogEntry) (utc_timestamp : Int) : Except String MechRequestRecord :=
  if mechRequestEventName = event.event then
    Except.ok (mechRequestRecord fetch event utc_timestamp)
  else
    Except.error "Invalid event to initialize MechRequest"

/-- The cursor stored under `doc[sender][contract][event_name]`, when all
three keys are present. -/
def getCursorOpt (doc : MechEventsData) (sender contract event_name : String) :
    Option EventTypeCursor :=
  match alist_get doc.senders sender with
  | none => none
  | some sd =>
    match alist_get sd contract with
    | none => none
    | some cd => alist_get cd event_name

/-- The cursor as the source reads and extends it: missing levels default
to empty dicts, i.e. to block `0` and no events (the
`.get(..., \x7b\x7d)` / `setdefault` chains). -/
def getCursor (doc : MechEventsData) (sender contract event_name : String) :
    EventTypeCursor :=
  (getCursorOpt doc sender contract event_name).getD
    { last_processed_block := 0, mech_events := [] }

/-- The `last_processed_block` read of lines 207-212: nested `.get` with
empty-dict defaults, then `.get("last_processed_block", 0)`. -/
def cursorLast (doc : MechEventsData) (sender contract event_name : String) : Int :=
  (getCursor doc sender contract event_name).last_processed_block

/-- Write a cursor back through the `setdefault` chain: missing
intermediate dicts are created (appended at the end, preserving
insertion order), existing ones updated in place. -/
def setCursor (doc : MechEventsData) (sender contract event_name : String)
    (c : EventTypeCursor) : MechEventsData :=
  let sd := (alist_get doc.senders sender).getD []
  let cd := (alist_get sd contract).getD []
  let cd' := alist_set cd event_name c
  let sd' := alist_set sd contract cd'
  { doc with senders := alist_set doc.senders sender sd' }

/-- Line 241-244 of the source: `setdefault` down to the event-type dict,
then `event_data["last_processed_block"] = to_block`.  In the source this
runs BEFORE the chunk's events are merged. -/
def advance_cursor (doc : MechEventsData) (sender contract event_name : String)
    (to_block : Int) : MechEventsData :=
  let c := getCursor doc sender contract event_name
  setCursor doc sender contract event_name
    { c with last_processed_block := to_block }

/-- Lines 246-253: iterate the sender-filtered entries of a chunk; for
each, resolve the block timestamp and, when the scanned event type is
`MechRequest.event_name`, construct a `MechRequest` and assign it into
`mech_events` keyed by its event id (a plain dict assignment).  A
construction error (ValueError) aborts the remaining iterations; the
Boolean result records whether that exception was raised. -/
def merge_one (chain : Chain) (sender contract event_name : String)
    (acc : MechEventsData × Bool) (ev : RawLogEntry) : MechEventsData × Bool :=
  if acc.2 then acc
  else
    let ts := chain.blockTimestamp ev.blockNumber
    if event_name = mechRequestEventName then
      match mechRequestInit chain.ipfsFetch ev ts with
      | Except.ok r =>
        let c := getCursor acc.1 sender contract event_name
        (setCursor acc.1 sender contract event_name
          { c with mech_events := alist_set c.mech_events r.event_id r }, false)
      | Except.error _ => (acc.1, true)
    else acc

def merge_chunk_events (chain : Chain) (sender contract event_name : String)
    (events : List RawLogEntry) (doc : MechEventsData) : MechEventsData × Bool :=
  events.foldl (merge_one chain sender contract event_name) (doc, false)

/-- One iteration of the chunk loop (lines 230-253): compute `to_block`,
fetch and sender-filter the chunk, advance the cursor's
`last_processed_block` to `to_block` (line 244) and THEN merge the
chunk's events (lines 246-253), in the source's statement order. -/
def process_chunk (chain : Chain) (sender contract event_name : String)
    (chunkSize ending_block : Int) (doc : MechEventsData) (from_block : Int) :
    MechEventsData × Bool :=
  let to_block := min (from_block + chunkSize) ending_block
  let chunk := chain.fetchLogs contract event_name from_block to_block
  let filtered_events := chunk.filter (fun ev => decide (ev.sender = sender))
  let doc1 := advance_cursor doc sender contract event_name to_block
  merge_chunk_events chain sender contract event_name filtered_events doc1

/-- Fuel-driven core of Python `range(s, e, step)` for positive step:
the fuel is an upper bound on the iteration count, consumed one unit per
produced element. -/
def rangeListAux : Nat → Int → Int → Int → List Int
  | 0, _, _, _ => []
  | fuel + 1, s, e, step =>
      if s < e then s :: rangeListAux fuel (s + step) e step else []

/-- Python `range(s, e, step)` for positive `step`: the from-block values
visited by the chunk loop. -/
def rangeList (s e step : Int) : List Int :=
  rangeListAux (e - s).toNat s e step

/-- The chunk loop over a list of from-block values: once an in-loop
exception has been recorded the remaining chunks are skipped (control
has jumped to the except handler). -/
def scan_step (chain : Chain) (sender contract event_name : String)
    (chunkSize ending : Int) (acc : MechEventsData × Bool) (fb : Int) :
    MechEventsData × Bool :=
  if acc.2 then acc
  else process_chunk chain sender contract event_name chunkSize ending acc.1 fb

def scan_chunks (chain : Chain) (sender contract event_name : String)
    (chunkSize ending : Int) (fbs : List Int) (doc : MechEventsData) :
    MechEventsData × Bool :=
  fbs.foldl (scan_step chain sender contract event_name chunkSize ending) (doc, false)

/-- The two exception kinds distinguished by `_update_mech_events_db`'s
handlers: a user `KeyboardInterrupt`, and any other in-scan `Exception`
(network failure, malformed metadata, ValueError from event
construction, ...). -/
inductive ScanExc
  | cancelled
  | errorExc
deriving DecidableEq, Repr

/-- Line 213: `starting_block = max(earliest_block, last_processed_block + 1)`. -/
def startingBlockOf (doc : MechEventsData) (sender contract event_name : String)
    (earliest : Int) : Int :=
  max earliest (cursorLast doc sender contract event_name + 1)

/-- Lines 222-224: when fewer than `EXCLUDED_BLOCKS_THRESHOLD` blocks
remain, back the ending block off by `NUM_EXCLUDED_BLOCKS` (the
near-head safety margin; the accompanying sleep has no state effect). -/
def adjustedEnding (latest starting th margin : Int) : Int :=
  if latest - starting < th then latest - margin else latest

/-- The from-block values the scan of a given pair will visit. -/
def scanFromBlocks (chain : Chain) (cSize th margin : Int)
    (contract event_name : String) (earliest : Int) (sender : String)
    (doc : MechEventsData) : List Int :=
  let starting := startingBlockOf doc sender contract event_name earliest
  rangeList starting (adjustedEnding chain.latestBlock starting th margin) cSize

/-- The inclusive block ranges `[from_block, to_block]` handed to
`create_filter`, chunk by chunk. -/
def scanRanges (chain : Chain) (cSize th margin : Int)
    (contract event_name : String) (earliest : Int) (sender : String)
    (doc : MechEventsData) : List (Int × Int) :=
  let starting := startingBlockOf doc sender contract event_name earliest
  let ending := adjustedEnding chain.latestBlock starting th margin
  (rangeList starting ending cSize).map (fun fb => (fb, min (fb + cSize) ending))

/-- The in-memory effect of `_update_mech_events_db`'s try block,
parameterized by the tuning constants and by a cooperative-cancellation
point: `interrupt = some k` models a `KeyboardInterrupt` delivered at
the chunk boundary before the k-th chunk is processed (`none`: no
interrupt).  The result pairs the document with the exception, if any,
that the handlers of lines 258-272 caught. -/
def update_mech_events_core (chain : Chain) (interrupt : Option Nat)
    (cSize th margin : Int) (contract event_name : String) (earliest : Int)
    (sender : String) (doc : MechEventsData) : MechEventsData × Option ScanExc :=
  let starting := startingBlockOf doc sender contract event_name earliest
  let ending := adjustedEnding chain.latestBlock starting th margin
  let fbs := rangeList starting ending cSize
  let wasCancelled : Bool :=
    match interrupt with
    | some k => decide (k < fbs.length)
    | none => false
  let fbs2 :=
    match interrupt with
    | some k => fbs.take k
    | none => fbs
  match scan_chunks chain sender contract event_name cSize ending fbs2 doc with
  | (d, true) => (d, some ScanExc.errorExc)
  | (d, false) => (d, if wasCancelled then some ScanExc.cancelled else none)

/-- `_update_mech_events_db`'s in-memory effect at the source's constants. -/
def update_mech_events_db (chain : Chain) (interrupt : Option Nat)
    (contract event_name : String) (earliest : Int) (sender : String)
    (doc : MechEventsData) : MechEventsData × Option ScanExc :=
  update_mech_events_core chain interrupt BLOCKS_CHUNK_SIZE
    EXCLUDED_BLOCKS_THRESHOLD NUM_EXCLUDED_BLOCKS contract event_name earliest
    sender doc

/-- A provider whose log query is determined block-wise by a fixed log
universe: `fetchLogs` over an inclusive range returns exactly the logs
whose block number falls in the range. -/
def chainOfLogs (latest : Int) (logs : List RawLogEntry) (bts : Int → Int)
    (ipfs : String → Option (List (String × String))) : Chain :=
  { latestBlock := latest
    fetchLogs := fun _ _ f t =>
      logs.filter (fun ev => decide (f ≤ ev.blockNumber) && decide (ev.blockNumber ≤ t))
    blockTimestamp := bts
    ipfsFetch := ipfs }

/-- Whether an event with the given id is stored under the given cursor. -/
def eventStored (doc : MechEventsData) (sender contract event_name id : String) :
    Prop :=
  (alist_get (getCursor doc sender contract event_name).mech_events id).isSome

instance (doc : MechEventsData) (sender contract event_name id : String) :
    Decidable (eventStored doc sender contract event_name id) := by
  unfold eventStored; infer_instance

/-- The event-id keys of a cursor carry no duplicates. -/
def eventKeysNodup (doc : MechEventsData) (sender contract event_name : String) :
    Prop :=
  ((getCursor doc sender contract event_name).mech_events.map Prod.fst).Nodup

-- The persistence layer: the JSON file, its migration-by-rename, and the
-- rate-limited writer.

/-- The possible contents of the backing `mech_events.json` path: absent
(FileNotFoundError on open), present but not parseable by `json.load`,
or a parsed document. -/
inductive StoredFile
  | missing
  | malformed
  | parsed (d : MechEventsData)
deriving DecidableEq, Repr

/-- The store directory: the main file plus the archived `*.old.json`
backups produced by migrations, each with its content. -/
structure FileStore where
  main : StoredFile
  backups : List (String × MechEventsData)
deriving DecidableEq, Repr

/-- The fresh document both fail-soft paths build:
`\x7b"db_version": MECH_EVENTS_DB_VERSION\x7d`. -/
def freshDoc : MechEventsData :=
  { db_version := MECH_EVENTS_DB_VERSION, senders := [] }

/-- The backup filename `mech_events.{timestamp}.old.json` built at
migration time. -/
def oldDbFilename (current_time : String) : String :=
  "mech_events." ++ current_time ++ ".old.json"

/-- `_read_mech_events_data_from_file`: `json.load` the main file; a
missing file (the only caught exception) falls back to a fresh document;
a parsed document whose `db_version` (default 0 — here the field is
total, matching every write path) is below the current one is renamed to
the timestamped backup and replaced by a fresh document; an unparseable
file makes `json.load` raise, which no handler catches. -/
def read_mech_events_data_from_file (current_time : String) (fs : FileStore) :
    Except Unit (MechEventsData × FileStore) :=
  match fs.main with
  | StoredFile.missing => Except.ok (freshDoc, fs)
  | StoredFile.malformed => Except.error ()
  | StoredFile.parsed d =>
      if d.db_version < MECH_EVENTS_DB_VERSION then
        Except.ok (freshDoc,
          { main := StoredFile.missing
            backups := fs.backups ++ [(oldDbFilename current_time, d)] })
      else
        Except.ok (d, fs)

/-- The mutable state a run threads through the store: the file system
plus the process-wide `last_write_time` shared by all save calls. -/
structure RunState where
  fs : FileStore
  last_write_time : Int
deriving DecidableEq, Repr

/-- `_write_mech_events_data`: dump the document to the main file and
update the shared `last_write_time`, unless the write is skipped because
it is neither forced nor at least `MINIMUM_WRITE_FILE_DELAY` after the
last successful write; a skipped write changes nothing. -/
def write_mech_events_data (now : Int) (doc : MechEventsData) (force_write : Bool)
    (st : RunState) : RunState :=
  if force_write ∨ MINIMUM_WRITE_FILE_DELAY ≤ now - st.last_write_time then
    { fs := { st.fs with main := StoredFile.parsed doc }, last_write_time := now }
  else
    st

/-- The warning the KeyboardInterrupt handler prints (lines 259-265). -/
def cancelWarning (contract : String) : String :=
  "WARNING: The update of the local Mech events database was cancelled (contract "
    ++ contract
    ++ "). Therefore, the Mech calls and costs might not be reflected accurately. You may attempt to rerun this script to retry synchronizing the database."

/-- The warning the broad Exception handler prints (lines 266-272). -/
def errorWarning (contract : String) : String :=
  "WARNING: An error occurred while updating the local Mech events database (contract "
    ++ contract
    ++ "). Therefore, the Mech calls and costs might not be reflected accurately. You may attempt to rerun this script to retry synchronizing the database."

/-- The warnings a contract's scan reports, by caught exception kind. -/
def scanWarnings (contract : String) : Option ScanExc → List String
  | none => []
  | some ScanExc.cancelled => [cancelWarning contract]
  | some ScanExc.errorExc => [errorWarning contract]

/-- `_update_mech_events_db` including its persistence effects: read the
database (an unparseable store raises out of the function — the read
sits before the try block), run the guarded scan, report a warning for
a caught exception, and finish with the unconditional forced write of
line 274.  The in-loop rate-limited saves of line 256 write prefixes of
the same in-memory object and are superseded by that final forced
write, so the end-of-call state does not depend on them. -/
def update_mech_events_db_run (chain : Chain) (interrupt : Option Nat)
    (now : Int) (current_time : String) (contract event_name : String)
    (earliest : Int) (sender : String) (st : RunState) :
    Except Unit (RunState × List String) :=
  match read_mech_events_data_from_file current_time st.fs with
  | Except.error e => Except.error e
  | Except.ok (doc0, fs1) =>
      let st1 : RunState := { st with fs := fs1 }
      let scanned :=
        update_mech_events_db chain interrupt contract event_name earliest sender doc0
      let st2 := write_mech_events_data now scanned.1 true st1
      Except.ok (st2, scanWarnings contract scanned.2)

/-- One step of the orchestrator's loop: scan the next configured
contract from the accumulated state, threading its warnings; an
escaped exception (only an unparseable store) aborts the whole run. -/
def scan_contract_step (chain : Chain) (interrupts : Nat → Option Nat)
    (now : Int) (current_time : String) (event_name sender : String)
    (acc : Except Unit (RunState × List String)) (ci : Nat × (String × Int)) :
    Except Unit (RunState × List String) :=
  match acc with
  | Except.error e => Except.error e
  | Except.ok (st', ws) =>
      match update_mech_events_db_run chain (interrupts ci.1) now current_time
          ci.2.1 event_name ci.2.2 sender st' with
      | Except.error e => Except.error e
      | Except.ok (st'', ws') => Except.ok (st'', ws ++ ws')

/-- `_get_mech_events`: run `_update_mech_events_db` for every configured
(contract, deployment block) pair in order — `interrupts i` injects the
cancellation point, if any, of the i-th contract's scan — then re-read
the database and aggregate, across all contracts stored under the
sender, the `mech_events` dictionaries for the event name. -/
def get_mech_events_run (chain : Chain) (interrupts : Nat → Option Nat)
    (now : Int) (current_time : String) (sender event_name : String)
    (st : RunState) :
    Except Unit (RunState × List String × List (String × MechRequestRecord)) :=
  match MECH_CONTRACT_ADDRESSES.enum.foldl
      (scan_contract_step chain interrupts now current_time event_name sender)
      (Except.ok (st, [])) with
  | Except.error e => Except.error e
  | Except.ok (st1, ws) =>
      match read_mech_events_data_from_file current_time st1.fs with
      | Except.error e => Except.error e
      | Except.ok (doc, fs2) =>
          let sender_data := (alist_get doc.senders sender).getD []
          let all_mech_events := sender_data.foldl
            (fun acc cd =>
              match alist_get cd.2 event_name with
              | some c => alist_update acc c.mech_events
              | none => alist_update acc [])
            []
          Except.ok ({ st1 with fs := fs2 }, ws, all_mech_events)

-- Concrete fixtures used to instantiate the theorems below on explicit
-- inputs.

/-- A provider with no logs and latest height 15, used for the spec's
concrete chunking example. -/
def chainNoLogs15 : Chain := chainOfLogs 15 [] (fun _ => 0) (fun _ => none)

/-- A stored record for event id "X" observed at block 5. -/
def cexRecOld : MechRequestRecord :=
  { event_id := "X"
    data := "d0"
    sender := "S"
    transaction_hash := "h0"
    block_number := 5
    utc_timestamp := 50
    ipfs_link := ""
    ipfs_contents := []
    request_id := "X"
    fee := DEFAULT_MECH_FEE }

/-- A document seeded with `cexRecOld` under ("S", "C", "Request") and
checkpoint 5. -/
def cexSeedDoc : MechEventsData :=
  { db_version := 2
    senders := [("S", [("C", [("Request",
      { last_processed_block := 5, mech_events := [("X", cexRecOld)] })])])] }

/-- A later raw log re-reporting request id "X", now at block 11. -/
def cexEvX : RawLogEntry :=
  { event := "Request"
    requestId := "X"
    data := "d1"
    sender := "S"
    transactionHash := "h1"
    blockNumber := 11 }

/-- A provider whose log universe is exactly `cexEvX`, with latest
height 10006 (far enough from block 6 to avoid the near-head margin). -/
def cexChain : Chain := chainOfLogs 10006 [cexEvX] (fun b => b * 10) (fun _ => none)

/-- The record the scanner rebuilds for "X" from `cexEvX`. -/
def cexRecNew : MechRequestRecord := mechRequestRecord (fun _ => none) cexEvX 110

/-- A store holding a parsed document at the outdated schema version 1. -/
def wOldDoc : MechEventsData := { db_version := 1, senders := [] }

def wOldStore : FileStore := { main := StoredFile.parsed wOldDoc, backups := [] }

/-- A fresh run state: no file yet, last write at time 0. -/
def wRunState : RunState :=
  { fs := { main := StoredFile.missing, backups := [] }, last_write_time := 0 }

/-- A two-event log universe spanning a multi-chunk range: request "A"
at block 2 and request "B" at block 15003, both from sender "S". -/
def wLogs : List RawLogEntry :=
  [{ event := "Request", requestId := "A", data := "dA", sender := "S",
     transactionHash := "hA", blockNumber := 2 },
   { event := "Request", requestId := "B", data := "dB", sender := "S",
     transactionHash := "hB", blockNumber := 15003 }]

/-- The block-determined provider over `wLogs` with latest height 15003. -/
def wChainC2 : Chain := chainOfLogs 15003 wLogs (fun b => b) (fun _ => none)

-- Association-list lemmas.

theorem alist_get_set_self {β : Type} (d : List (String × β)) (k : String) (v : β) :
    alist_get (alist_set d k v) k = some v := by
  induction d with
  | nil => simp [alist_set, alist_get]
  | cons hd tl ih =>
      obtain ⟨k', v'⟩ := hd
      by_cases h : k' = k
      · simp [alist_set, h, alist_get]
      · simp [alist_set, h, alist_get, ih]

theorem alist_get_set_ne {β : Type} (d : List (String × β)) (k k2 : String) (v : β)
    (h : k ≠ k2) : alist_get (alist_set d k v) k2 = alist_get d k2 := by
  induction d with
  | nil => simp [alist_set, alist_get, h]
  | cons hd tl ih =>
      obtain ⟨k', v'⟩ := hd
      by_cases h' : k' = k
      · subst h'
        simp [alist_set, alist_get, h]
      · simp [alist_set, h', alist_get, ih]

theorem alist_set_eq_self {β : Type} (d : List (String × β)) (k : String) (v : β)
    (h : alist_get d k = some v) : alist_set d k v = d := by
  induction d with
  | nil => simp [alist_get] at h
  | cons hd tl ih =>
      obtain ⟨k', v'⟩ := hd
      by_cases h' : k' = k
      · subst h'
        simp [alist_get] at h
        simp [alist_set, h]
      · simp [alist_get, h'] at h
        simp [alist_set, h', ih h]

theorem alist_get_eq_none_iff {β : Type} (d : List (String × β)) (k : String) :
    alist_get d k = none ↔ k ∉ d.map Prod.fst := by
  induction d with
  | nil => simp [alist_get]
  | cons hd tl ih =>
      obtain ⟨k', v'⟩ := hd
      by_cases h : k' = k
      · subst h
        simp [alist_get]
      · simp [alist_get, h, ih]
        intro hk
        exact fun he => h he.symm

theorem alist_set_keys {β : Type} (d : List (String × β)) (k : String) (v : β) :
    (alist_set d k v).map Prod.fst =
      if (alist_get d k).isNone then d.map Prod.fst ++ [k] else d.map Prod.fst := by
  induction d with
  | nil => simp [alist_set, alist_get]
  | cons hd tl ih =>
      obtain ⟨k', v'⟩ := hd
      by_cases h : k' = k
      · subst h
        simp [alist_set, alist_get]
      · simp only [alist_set, alist_get, h, if_false, List.map_cons, ih]
        rcases h2 : alist_get tl k with _ | w <;> simp [h2]

theorem alist_set_keys_nodup {β : Type} (d : List (String × β)) (k : String) (v : β)
    (h : (d.map Prod.fst).Nodup) : ((alist_set d k v).map Prod.fst).Nodup := by
  rw [alist_set_keys]
  rcases h2 : alist_get d k with _ | w
  · simp only [h2, Option.isNone_none, if_true]
    rw [List.nodup_append]
    refine ⟨h, List.nodup_singleton k, ?_⟩
    intro a ha hb
    simp at hb
    subst hb
    exact ((alist_get_eq_none_iff d a).mp h2) ha
  · simp [h2, h]

-- Cursor read/write lemmas.

theorem getCursor_setCursor (doc : MechEventsData) (s c e : String)
    (cur : EventTypeCursor) : getCursor (setCursor doc s c e cur) s c e = cur := by
  unfold getCursor getCursorOpt setCursor
  simp [alist_get_set_self]

theorem db_version_setCursor (doc : MechEventsData) (s c e : String)
    (cur : EventTypeCursor) : (setCursor doc s c e cur).db_version = doc.db_version := rfl

theorem cursorLast_advance (doc : MechEventsData) (s c e : String) (tb : Int) :
    cursorLast (advance_cursor doc s c e tb) s c e = tb := by
  unfold cursorLast advance_cursor
  rw [getCursor_setCursor]

theorem events_advance (doc : MechEventsData) (s c e : String) (tb : Int) :
    (getCursor (advance_cursor doc s c e tb) s c e).mech_events =
      (getCursor doc s c e).mech_events := by
  unfold advance_cursor
  rw [getCursor_setCursor]

-- Merge lemmas: the in-chunk event loop does not move the checkpoint,
-- and under well-formed entries it succeeds and stores exactly the
-- incoming request ids (by assignment, i.e. overwriting).

theorem merge_one_last (chain : Chain) (s c e : String)
    (acc : MechEventsData × Bool) (ev : RawLogEntry) :
    cursorLast (merge_one chain s c e acc ev).1 s c e = cursorLast acc.1 s c e := by
  unfold merge_one
  rcases acc with ⟨d, b⟩
  cases b
  · simp only [Bool.false_eq_true, if_false]
    by_cases h2 : e = mechRequestEventName
    · subst h2
      rcases h3 : mechRequestInit chain.ipfsFetch ev (chain.blockTimestamp ev.blockNumber)
        with r | r
      · simp [h3]
      · simp only [h3, if_true]
        unfold cursorLast
        simp only [getCursor_setCursor]
    · simp [h2]
  · simp

theorem merge_foldl_last (chain : Chain) (s c e : String) (evs : List RawLogEntry) :
    ∀ acc : MechEventsData × Bool,
      cursorLast (evs.foldl (merge_one chain s c e) acc).1 s c e =
        cursorLast acc.1 s c e := by
  induction evs with
  | nil => intro acc; rfl
  | cons ev evs ih =>
      intro acc
      rw [List.foldl_cons, ih, merge_one_last]

theorem merge_last (chain : Chain) (s c e : String) (evs : List RawLogEntry)
    (doc : MechEventsData) :
    cursorLast (merge_chunk_events chain s c e evs doc).1 s c e =
      cursorLast doc s c e := by
  unfold merge_chunk_events
  rw [merge_foldl_last]

theorem process_chunk_last (chain : Chain) (s c e : String)
    (cSize ending : Int) (doc : MechEventsData) (fb : Int) :
    cursorLast (process_chunk chain s c e cSize ending doc fb).1 s c e =
      min (fb + cSize) ending := by
  unfold process_chunk
  rw [merge_last, cursorLast_advance]

-- rangeList lemmas.

theorem rangeListAux_congr (e step : Int) :
    ∀ f1 f2 : Nat, ∀ s : Int, 0 < step → (e - s).toNat ≤ f1 → (e - s).toNat ≤ f2 →
      rangeListAux f1 s e step = rangeListAux f2 s e step := by
  intro f1
  induction f1 with
  | zero =>
      intro f2 s hstep h1 h2
      have hse : ¬ s < e := by omega
      cases f2 with
      | zero => rfl
      | succ g => simp [rangeListAux, hse]
  | succ f ih =>
      intro f2 s hstep h1 h2
      cases f2 with
      | zero =>
          have hse : ¬ s < e := by omega
          simp [rangeListAux, hse]
      | succ g =>
          by_cases hse : s < e
          · simp only [rangeListAux, hse, if_true]
            have := ih g (s + step) hstep (by omega) (by omega)
            rw [this]
          · simp [rangeListAux, hse]

theorem rangeList_nil (s e step : Int) (h : e ≤ s) : rangeList s e step = [] := by
  unfold rangeList
  have : (e - s).toNat = 0 := by omega
  rw [this]
  rfl

theorem rangeList_cons (s e step : Int) (hstep : 0 < step) (h : s < e) :
    rangeList s e step = s :: rangeList (s + step) e step := by
  unfold rangeList
  have h1 : (e - s).toNat ≠ 0 := by omega
  obtain ⟨m, hm⟩ := Nat.exists_eq_succ_of_ne_zero h1
  rw [hm]
  simp only [rangeListAux, h, if_true]
  have := rangeListAux_congr e step m ((e - (s + step)).toNat) (s + step) hstep
    (by omega) (by omega)
  rw [this]

theorem rangeList_mem (s e step fb : Int) (hstep : 0 < step)
    (h : fb ∈ rangeList s e step) : s ≤ fb ∧ fb < e := by
  unfold rangeList at h
  generalize hf : (e - s).toNat = fuel at h
  clear hf
  induction fuel generalizing s with
  | zero => simp [rangeListAux] at h
  | succ f ih =>
      by_cases hse : s < e
      · simp only [rangeListAux, hse, if_true, List.mem_cons] at h
        rcases h with h | h
        · omega
        · have := ih (s + step) h
          omega
      · simp [rangeListAux, hse] at h

theorem rangeList_head (s e step : Int) (hstep : 0 < step) (h : s < e) :
    (rangeList s e step).head? = some s := by
  rw [rangeList_cons s e step hstep h]
  rfl

theorem rangeList_get (s e step : Int) :
    ∀ (i : Nat) (fb : Int), (rangeList s e step).get? i = some fb →
      fb = s + i * step := by
  unfold rangeList
  generalize hf : (e - s).toNat = fuel
  clear hf
  induction fuel generalizing s with
  | zero => intro i fb h; simp [rangeListAux] at h
  | succ f ih =>
      intro i fb h
      by_cases hse : s < e
      · simp only [rangeListAux, hse, if_true] at h
        cases i with
        | zero =>
            simp at h
            simp [h]
        | succ j =>
            simp only [List.get?_cons_succ] at h
            have := ih (s + step) j fb h
            rw [this]
            push_cast
            ring
      · simp [rangeListAux, hse] at h

theorem rangeList_take (e step : Int) (hstep : 0 < step) :
    ∀ (k : Nat) (s : Int),
      (rangeList s e step).take k = rangeList s (min (s + k * step) e) step := by
  intro k
  induction k with
  | zero =>
      intro s
      have h0 : min (s + ((0 : Nat) : Int) * step) e ≤ s := by
        simp
      rw [List.take_zero, rangeList_nil _ _ _ h0]
  | succ j ih =>
      intro s
      by_cases hse : s < e
      · have hs2 : s < min (s + ((j + 1 : Nat) : Int) * step) e := by
          have : (0 : Int) < ((j : Int) + 1) * step := by positivity
          push_cast
          push_cast at this
          omega
        rw [rangeList_cons s e step hstep hse, List.take_succ_cons,
          rangeList_cons s (min (s + ((j + 1 : Nat) : Int) * step) e) step hstep hs2,
          ih (s + step)]
        have harith : s + step + ((j : Nat) : Int) * step =
            s + ((j + 1 : Nat) : Int) * step := by
          push_cast
          ring
        rw [harith]
      · rw [rangeList_nil s e step (by omega), rangeList_nil s _ step (by omega)]
        rfl

-- Scan-loop lemmas.

theorem scan_foldl_stuck (chain : Chain) (s c e : String) (cSize ending : Int) :
    ∀ (fbs : List Int) (d : MechEventsData),
      fbs.foldl (scan_step chain s c e cSize ending) (d, true) = (d, true) := by
  intro fbs
  induction fbs with
  | nil => intro d; rfl
  | cons fb fbs ih =>
      intro d
      rw [List.foldl_cons]
      show fbs.foldl _ (scan_step chain s c e cSize ending (d, true) fb) = _
      have : scan_step chain s c e cSize ending (d, true) fb = (d, true) := by
        unfold scan_step
        simp
      rw [this, ih]

theorem scan_chunks_nil (chain : Chain) (s c e : String) (cSize ending : Int)
    (doc : MechEventsData) :
    scan_chunks chain s c e cSize ending [] doc = (doc, false) := rfl

theorem scan_chunks_cons (chain : Chain) (s c e : String) (cSize ending : Int)
    (fb : Int) (fbs : List Int) (doc : MechEventsData) :
    scan_chunks chain s c e cSize ending (fb :: fbs) doc =
      (if (process_chunk chain s c e cSize ending doc fb).2 then
        ((process_chunk chain s c e cSize ending doc fb).1, true)
      else
        scan_chunks chain s c e cSize ending fbs
          (process_chunk chain s c e cSize ending doc fb).1) := by
  unfold scan_chunks
  rw [List.foldl_cons]
  rcases hp : process_chunk chain s c e cSize ending doc fb with ⟨d1, b1⟩
  have hstep : scan_step chain s c e cSize ending (doc, false) fb = (d1, b1) := by
    unfold scan_step
    simp [hp]
  rw [hstep]
  cases b1
  · simp
  · simp [scan_foldl_stuck]

/-- Through a scan, the document is either untouched or its cursor's
`last_processed_block` equals `min (fb + cSize) ending` for one of the
visited from-blocks (whichever chunk advanced it last), even when an
in-chunk exception cut the loop short. -/
theorem scan_docs_last (chain : Chain) (s c e : String) (cSize ending : Int) :
    ∀ (fbs : List Int) (doc : MechEventsData),
      (scan_chunks chain s c e cSize ending fbs doc).1 = doc ∨
        ∃ fb ∈ fbs,
          cursorLast (scan_chunks chain s c e cSize ending fbs doc).1 s c e =
            min (fb + cSize) ending := by
  intro fbs
  induction fbs with
  | nil => intro doc; left; rfl
  | cons fb fbs ih =>
      intro doc
      rw [scan_chunks_cons]
      rcases hp : process_chunk chain s c e cSize ending doc fb with ⟨d1, b1⟩
      have hlast : cursorLast d1 s c e = min (fb + cSize) ending := by
        have := process_chunk_last chain s c e cSize ending doc fb
        rw [hp] at this
        exact this
      cases b1
      · simp only [Bool.false_eq_true, if_false]
        rcases ih d1 with h | ⟨fb', hmem, h⟩
        · right
          exact ⟨fb, List.mem_cons_self fb fbs, by rw [h, hlast]⟩
        · right
          exact ⟨fb', List.mem_cons_of_mem fb hmem, h⟩
      · simp only [if_true]
        right
        exact ⟨fb, List.mem_cons_self fb fbs, hlast⟩

/-- A scan over a nonempty range that raised no exception leaves the
cursor exactly at the ending block. -/
theorem scan_last_of_no_err (chain : Chain) (s c e : String) (cSize ending : Int)
    (hc : 0 < cSize) :
    ∀ (start : Int) (doc d : MechEventsData), start < ending →
      scan_chunks chain s c e cSize ending (rangeList start ending cSize) doc =
        (d, false) →
      cursorLast d s c e = ending := by
  intro start
  generalize hf : (ending - start).toNat = fuel
  induction fuel using Nat.strong_induction_on generalizing start with
  | _ fuel ih =>
      intro doc d hlt hscan
      rw [rangeList_cons start ending cSize hc hlt] at hscan
      rw [scan_chunks_cons] at hscan
      rcases hp : process_chunk chain s c e cSize ending doc start with ⟨d1, b1⟩
      rw [hp] at hscan
      have hlast : cursorLast d1 s c e = min (start + cSize) ending := by
        have := process_chunk_last chain s c e cSize ending doc start
        rw [hp] at this
        exact this
      cases b1
      · simp only [Bool.false_eq_true, if_false] at hscan
        by_cases h2 : start + cSize < ending
        · exact ih ((ending - (start + cSize)).toNat) (by omega) (start + cSize) rfl
            d1 d h2 hscan
        · rw [rangeList_nil (start + cSize) ending cSize (by omega),
            scan_chunks_nil] at hscan
          have hd : d = d1 := by
            have := congrArg Prod.fst hscan
            exact this.symm
          rw [hd, hlast]
          omega
      · simp at hscan

-- Claim theorems.

/-- C10: Constructing a MechRequest from a well-formed raw log entry
fails (ValueError) exactly when the entry's event name is not
"Request"; on success the stored record's `request_id` equals its
`event_id` (the entry's `requestId`) and its `fee` is the fixed default
10000000000000000, irrespective of the entry. -/
theorem C10_mech_request_construction
    (fetch : String → Option (List (String × String))) (e : RawLogEntry) (ts : Int) :
    ((mechRequestInit fetch e ts).isOk = true ↔ e.event = "Request")
    ∧ (∀ r, mechRequestInit fetch e ts = Except.ok r →
        r.request_id = e.requestId ∧ r.event_id = e.requestId ∧
          r.request_id = r.event_id ∧ r.fee = 10000000000000000) := by
  constructor
  · constructor
    · intro hok
      unfold mechRequestInit mechRequestEventName at hok
      by_cases h : "Request" = e.event
      · exact h.symm
      · rw [if_neg h] at hok
        simp [Except.isOk, Except.toBool] at hok
    · intro hev
      unfold mechRequestInit mechRequestEventName
      rw [if_pos hev.symm]
      rfl
  · intro r hr
    unfold mechRequestInit at hr
    by_cases h : mechRequestEventName = e.event
    · rw [if_pos h] at hr
      cases hr
      exact ⟨rfl, rfl, rfl, rfl⟩
    · rw [if_neg h] at hr
      cases hr

/-- C10 witness: the construction properties evaluated on an explicit
entry. -/
theorem C10_witness :
    ((mechRequestInit (fun _ => none) cexEvX 7).isOk = true ↔ cexEvX.event = "Request")
    ∧ (∀ r, mechRequestInit (fun _ => none) cexEvX 7 = Except.ok r →
        r.request_id = cexEvX.requestId ∧ r.event_id = cexEvX.requestId ∧
          r.request_id = r.event_id ∧ r.fee = 10000000000000000) :=
  C10_mech_request_construction (fun _ => none) cexEvX 7

/-- C7: a save writes the document if and only if it is forced or at
least MINIMUM_WRITE_FILE_DELAY (20s) has elapsed since the shared
last-successful-write timestamp; a skipped save leaves the whole state
unchanged, and a performed write stores the document and moves the
shared timestamp to now (leaving the rest of the file system alone). -/
theorem C7_rate_limited_save (now : Int) (doc : MechEventsData) (force : Bool)
    (st : RunState) :
    (¬ (force = true ∨ MINIMUM_WRITE_FILE_DELAY ≤ now - st.last_write_time) →
        write_mech_events_data now doc force st = st)
    ∧ ((force = true ∨ MINIMUM_WRITE_FILE_DELAY ≤ now - st.last_write_time) →
        (write_mech_events_data now doc force st).fs.main = StoredFile.parsed doc
        ∧ (write_mech_events_data now doc force st).last_write_time = now
        ∧ (write_mech_events_data now doc force st).fs.backups = st.fs.backups) := by
  constructor
  · intro h
    unfold write_mech_events_data
    rw [if_neg h]
  · intro h
    unfold write_mech_events_data
    rw [if_pos h]
    exact ⟨rfl, rfl, rfl⟩

/-- C7 witness: at time 20 with last write at 0, an unforced save goes
through and updates the shared timestamp. -/
theorem C7_witness :
    ((false = true ∨ MINIMUM_WRITE_FILE_DELAY ≤ 20 - wRunState.last_write_time)
    ∧ ((write_mech_events_data 20 freshDoc false wRunState).fs.main =
          StoredFile.parsed freshDoc
        ∧ (write_mech_events_data 20 freshDoc false wRunState).last_write_time = 20
        ∧ (write_mech_events_data 20 freshDoc false wRunState).fs.backups =
            wRunState.fs.backups)) :=
  ⟨Or.inr (by decide),
    (C7_rate_limited_save 20 freshDoc false wRunState).2 (Or.inr (by decide))⟩

/-- C6 counterexample: an unparseable backing file is an abnormal stored
state on which the load raises (json.load's error is not caught — only
FileNotFoundError is), so "load() never fails on abnormal stored
state" is false as stated. -/
theorem C6_counterexample :
    read_mech_events_data_from_file "2024-01-01_00-00-00"
      { main := StoredFile.malformed, backups := [] } = Except.error () := rfl

/-- C6 amended: on the two handled abnormal states the load fails soft
exactly as claimed — a missing file yields the empty document at the
current version, and an outdated dbVersion renames the file to the
timestamped `mech_events.{ts}.old.json` backup (distinct from the main
path, content archived unchanged) and yields a fresh empty document,
with no field-level transform; an up-to-date document is returned as
is.  (Unparseable content, by contrast, raises.) -/
theorem C6_soft_load (ts : String) (fs : FileStore) :
    (fs.main = StoredFile.missing →
        read_mech_events_data_from_file ts fs = Except.ok (freshDoc, fs))
    ∧ (∀ d, fs.main = StoredFile.parsed d → d.db_version < MECH_EVENTS_DB_VERSION →
        read_mech_events_data_from_file ts fs =
          Except.ok (freshDoc,
            { main := StoredFile.missing
              backups := fs.backups ++ [(oldDbFilename ts, d)] })
        ∧ oldDbFilename ts ≠ "mech_events.json")
    ∧ (∀ d, fs.main = StoredFile.parsed d → MECH_EVENTS_DB_VERSION ≤ d.db_version →
        read_mech_events_data_from_file ts fs = Except.ok (d, fs)) := by
  refine ⟨?_, ?_, ?_⟩
  · intro h
    unfold read_mech_events_data_from_file
    rw [h]
  · intro d h hv
    constructor
    · unfold read_mech_events_data_from_file
      rw [h]
      simp [hv]
    · intro hne
      have hlen := congrArg String.length hne
      simp [oldDbFilename, String.length_append] at hlen
      have h1 : "mech_events.".length = 12 := by decide
      have h2 : ".old.json".length = 9 := by decide
      have h3 : "mech_events.json".length = 16 := by decide
      omega
  · intro d h hv
    unfold read_mech_events_data_from_file
    rw [h]
    simp [Nat.not_lt.mpr hv]

/-- C6 witness: loading a version-1 store archives it under the
timestamped name with its content intact and restarts fresh. -/
theorem C6_witness :
    (read_mech_events_data_from_file "2024-01-01_00-00-00" wOldStore =
      Except.ok (freshDoc,
        { main := StoredFile.missing
          backups := wOldStore.backups
            ++ [(oldDbFilename "2024-01-01_00-00-00", wOldDoc)] })
    ∧ oldDbFilename "2024-01-01_00-00-00" ≠ "mech_events.json") :=
  (C6_soft_load "2024-01-01_00-00-00" wOldStore).2.1 wOldDoc rfl (by decide)

/-- C1 counterexample: the merge is NOT first-write-wins.  Seeding the
("S","C","Request") cursor with a record for event id "X" and scanning a
range in which the provider again reports "X" (here at block 11)
replaces the stored record with the newly constructed one
(`mech_events[event_id] = ...` is a plain dict assignment), so the
existing record is overwritten, not left as-is. -/
theorem C1_counterexample :
    alist_get (getCursor cexSeedDoc "S" "C" "Request").mech_events "X" = some cexRecOld
    ∧ alist_get (getCursor
        (update_mech_events_db cexChain none "C" "Request" 1 "S" cexSeedDoc).1
        "S" "C" "Request").mech_events "X" = some cexRecNew
    ∧ cexRecNew ≠ cexRecOld := by decide

/-- C1 amended: the merge is last-write-wins.  Re-observing an event id
that already exists in `cursor.events` overwrites the stored record
with the newly constructed one; in particular, when the reconstruction
yields a record identical to the stored one (e.g. a deterministic
provider re-reporting the same log), the event map is left unchanged —
but an existing record is otherwise replaced. -/
theorem C1_last_write_wins (chain : Chain) (s c : String) (ev : RawLogEntry)
    (doc : MechEventsData) (rOld : MechRequestRecord)
    (hev : ev.event = mechRequestEventName)
    (hold : alist_get (getCursor doc s c mechRequestEventName).mech_events
      ev.requestId = some rOld) :
    (getCursor (merge_chunk_events chain s c mechRequestEventName [ev] doc).1
        s c mechRequestEventName).mech_events =
      alist_set (getCursor doc s c mechRequestEventName).mech_events ev.requestId
        (mechRequestRecord chain.ipfsFetch ev (chain.blockTimestamp ev.blockNumber))
    ∧ alist_get (getCursor (merge_chunk_events chain s c mechRequestEventName [ev] doc).1
        s c mechRequestEventName).mech_events ev.requestId =
        some (mechRequestRecord chain.ipfsFetch ev (chain.blockTimestamp ev.blockNumber))
    ∧ (mechRequestRecord chain.ipfsFetch ev (chain.blockTimestamp ev.blockNumber) = rOld →
        (getCursor (merge_chunk_events chain s c mechRequestEventName [ev] doc).1
          s c mechRequestEventName).mech_events =
          (getCursor doc s c mechRequestEventName).mech_events) := by
  have hinit : mechRequestInit chain.ipfsFetch ev (chain.blockTimestamp ev.blockNumber) =
      Except.ok (mechRequestRecord chain.ipfsFetch ev (chain.blockTimestamp ev.blockNumber)) := by
    unfold mechRequestInit
    rw [if_pos hev.symm]
  have hm : (merge_chunk_events chain s c mechRequestEventName [ev] doc).1 =
      setCursor doc s c mechRequestEventName
        { getCursor doc s c mechRequestEventName with
          mech_events := alist_set (getCursor doc s c mechRequestEventName).mech_events
            ev.requestId
            (mechRequestRecord chain.ipfsFetch ev (chain.blockTimestamp ev.blockNumber)) } := by
    unfold merge_chunk_events
    rw [List.foldl_cons, List.foldl_nil]
    unfold merge_one
    simp [hinit]
    rfl
  have hev' : (getCursor (merge_chunk_events chain s c mechRequestEventName [ev] doc).1
      s c mechRequestEventName).mech_events =
      alist_set (getCursor doc s c mechRequestEventName).mech_events ev.requestId
        (mechRequestRecord chain.ipfsFetch ev (chain.blockTimestamp ev.blockNumber)) := by
    rw [hm, getCursor_setCursor]
  refine ⟨hev', ?_, ?_⟩
  · rw [hev']
    exact alist_get_set_self _ _ _
  · intro h
    rw [hev', h]
    exact alist_set_eq_self _ _ _ hold

/-- C1 amended witness: the overwrite evaluated on the seeded document
and the re-reported log. -/
theorem C1_witness :
    cexEvX.event = mechRequestEventName
    ∧ alist_get (getCursor
        (merge_chunk_events cexChain "S" "C" mechRequestEventName [cexEvX] cexSeedDoc).1
        "S" "C" mechRequestEventName).mech_events cexEvX.requestId =
        some (mechRequestRecord cexChain.ipfsFetch cexEvX
          (cexChain.blockTimestamp cexEvX.blockNumber)) :=
  ⟨by decide,
    (C1_last_write_wins cexChain "S" "C" cexEvX cexSeedDoc cexRecOld
      (by decide) (by decide)).2.1⟩

/-- C3: the scan starts at `max(deployedBlock, lastProcessedBlock + 1)`
(the stored value defaulting to 0): every fetched range begins strictly
above the stored checkpoint and at or above the deployment block, so no
block of `[deployedBlock, lastProcessedBlock]` is ever re-fetched; when
the scan fetches anything at all its first from-block is exactly the
starting block, and with no stored cursor the starting block is the
deployment block (for deployment blocks ≥ 1). -/
theorem C3_resumability (chain : Chain) (doc : MechEventsData)
    (contract event_name sender : String) (earliest : Int) (hD : 1 ≤ earliest) :
    startingBlockOf doc sender contract event_name earliest =
      max earliest (cursorLast doc sender contract event_name + 1)
    ∧ (∀ ft ∈ scanRanges chain BLOCKS_CHUNK_SIZE EXCLUDED_BLOCKS_THRESHOLD
          NUM_EXCLUDED_BLOCKS contract event_name earliest sender doc,
        cursorLast doc sender contract event_name < ft.1 ∧ earliest ≤ ft.1)
    ∧ (scanFromBlocks chain BLOCKS_CHUNK_SIZE EXCLUDED_BLOCKS_THRESHOLD
          NUM_EXCLUDED_BLOCKS contract event_name earliest sender doc ≠ [] →
        (scanFromBlocks chain BLOCKS_CHUNK_SIZE EXCLUDED_BLOCKS_THRESHOLD
          NUM_EXCLUDED_BLOCKS contract event_name earliest sender doc).head? =
          some (startingBlockOf doc sender contract event_name earliest))
    ∧ (getCursorOpt doc sender contract event_name = none →
        startingBlockOf doc sender contract event_name earliest = earliest) := by
  have hc : (0 : Int) < BLOCKS_CHUNK_SIZE := by decide
  refine ⟨rfl, ?_, ?_, ?_⟩
  · intro ft hft
    unfold scanRanges at hft
    simp only [List.mem_map] at hft
    obtain ⟨fb, hmem, hfb⟩ := hft
    have hbounds := rangeList_mem _ _ _ fb hc hmem
    have hstart : max earliest (cursorLast doc sender contract event_name + 1) ≤ fb :=
      hbounds.1
    rw [← hfb]
    constructor
    · simp only []
      omega
    · simp only []
      omega
  · intro hne
    by_cases h : startingBlockOf doc sender contract event_name earliest <
        adjustedEnding chain.latestBlock
          (startingBlockOf doc sender contract event_name earliest)
          EXCLUDED_BLOCKS_THRESHOLD NUM_EXCLUDED_BLOCKS
    · unfold scanFromBlocks
      rw [rangeList_head _ _ _ hc h]
    · exfalso
      apply hne
      unfold scanFromBlocks
      exact rangeList_nil _ _ _ (by omega)
  · intro h
    unfold startingBlockOf cursorLast getCursor
    rw [h]
    simp
    omega

/-- C3 witness: the resumability facts evaluated at deployment block 10
on the empty checkpoint. -/
theorem C3_witness :
    (1 : Int) ≤ 10
    ∧ (getCursorOpt freshDoc "S" "C" "Request" = none →
        startingBlockOf freshDoc "S" "C" "Request" 10 = 10) :=
  ⟨by decide, (C3_resumability chainNoLogs15 freshDoc "C" "Request" "S" 10 (by decide)).2.2.2⟩

/-- C5: each chunk's upper bound is `min (fromBlock + chunkSize)
endingBlock` and processing a chunk always (matching entries or not)
leaves the cursor's `last_processed_block` equal to that bound; the
visited from-blocks step from the starting block by the chunk size; and
in the spec's concrete scenario (chunk size 2, threshold 2x2, deployment
block 10, latest height 15, absent checkpoint) the fetched ranges are
exactly [10,12], [12,14], [14,15] and the final checkpoint is 15. -/
theorem C5_chunk_iteration :
    (∀ (chain : Chain) (s c e : String) (cSize ending : Int) (doc : MechEventsData)
        (fb : Int),
        cursorLast (process_chunk chain s c e cSize ending doc fb).1 s c e =
          min (fb + cSize) ending)
    ∧ (∀ (chain : Chain) (cSize th margin : Int) (contract event_name sender : String)
        (earliest : Int) (doc : MechEventsData) (i : Nat) (fb : Int),
        (scanFromBlocks chain cSize th margin contract event_name earliest sender
          doc).get? i = some fb →
        fb = startingBlockOf doc sender contract event_name earliest + i * cSize)
    ∧ (scanRanges chainNoLogs15 2 4 10 "C" "Request" 10 "S" freshDoc =
        [(10, 12), (12, 14), (14, 15)]
      ∧ cursorLast (update_mech_events_core chainNoLogs15 none 2 4 10 "C" "Request"
          10 "S" freshDoc).1 "S" "C" "Request" = 15) := by
  refine ⟨?_, ?_, by decide⟩
  · intro chain s c e cSize ending doc fb
    exact process_chunk_last chain s c e cSize ending doc fb
  · intro chain cSize th margin contract event_name sender earliest doc i fb h
    unfold scanFromBlocks at h
    exact rangeList_get _ _ _ i fb h

/-- C5 witness: the stepping rule instantiated on the concrete scenario:
the second visited from-block is 10 + 1 * 2 = 12. -/
theorem C5_witness :
    (scanFromBlocks chainNoLogs15 2 4 10 "C" "Request" 10 "S" freshDoc).get? 1 =
      some 12
    ∧ (12 : Int) = startingBlockOf freshDoc "S" "C" "Request" 10 + (1 : Nat) * 2 :=
  ⟨by decide,
    C5_chunk_iteration.2.1 chainNoLogs15 2 4 10 "C" "Request" "S" 10 freshDoc 1 12
      (by decide)⟩

/-- The update's resulting document is the scan of some list of
from-blocks all drawn from the computed range (the whole range, or the
prefix cut short by a cancellation). -/
theorem update_core_fst (chain : Chain) (interrupt : Option Nat)
    (cSize th margin : Int) (contract event_name : String) (earliest : Int)
    (sender : String) (doc : MechEventsData) :
    ∃ fbs2 : List Int,
      (∀ fb ∈ fbs2,
        fb ∈ rangeList (startingBlockOf doc sender contract event_name earliest)
          (adjustedEnding chain.latestBlock
            (startingBlockOf doc sender contract event_name earliest) th margin) cSize)
      ∧ (update_mech_events_core chain interrupt cSize th margin contract event_name
          earliest sender doc).1 =
        (scan_chunks chain sender contract event_name cSize
          (adjustedEnding chain.latestBlock
            (startingBlockOf doc sender contract event_name earliest) th margin)
          fbs2 doc).1 := by
  unfold update_mech_events_core
  cases interrupt with
  | none =>
      refine ⟨rangeList (startingBlockOf doc sender contract event_name earliest)
        (adjustedEnding chain.latestBlock
          (startingBlockOf doc sender contract event_name earliest) th margin) cSize,
        fun fb h => h, ?_⟩
      rcases hscan : scan_chunks chain sender contract event_name cSize
          (adjustedEnding chain.latestBlock
            (startingBlockOf doc sender contract event_name earliest) th margin)
          (rangeList (startingBlockOf doc sender contract event_name earliest)
            (adjustedEnding chain.latestBlock
              (startingBlockOf doc sender contract event_name earliest) th margin) cSize)
          doc with ⟨d, b⟩
      cases b <;> simp [hscan]
  | some k =>
      refine ⟨(rangeList (startingBlockOf doc sender contract event_name earliest)
        (adjustedEnding chain.latestBlock
          (startingBlockOf doc sender contract event_name earliest) th margin)
          cSize).take k,
        fun fb h => List.take_subset _ _ h, ?_⟩
      rcases hscan : scan_chunks chain sender contract event_name cSize
          (adjustedEnding chain.latestBlock
            (startingBlockOf doc sender contract event_name earliest) th margin)
          ((rangeList (startingBlockOf doc sender contract event_name earliest)
            (adjustedEnding chain.latestBlock
              (startingBlockOf doc sender contract event_name earliest) th margin)
              cSize).take k)
          doc with ⟨d, b⟩
      cases b <;> simp [hscan]

/-- C4: across any scan (interrupted or not, near-head margin or not)
the cursor's lastProcessedBlock never decreases; the invariant
lastProcessedBlock ≥ deployedBlock - 1 for an existing cursor is
preserved; and no visited from-block lies below the deployment block. -/
theorem C4_monotone_invariant (chain : Chain) (interrupt : Option Nat)
    (contract event_name sender : String) (earliest : Int) (doc : MechEventsData) :
    cursorLast doc sender contract event_name ≤
      cursorLast (update_mech_events_db chain interrupt contract event_name earliest
        sender doc).1 sender contract event_name
    ∧ (((getCursorOpt doc sender contract event_name).isSome = true →
          earliest - 1 ≤ cursorLast doc sender contract event_name) →
        (getCursorOpt (update_mech_events_db chain interrupt contract event_name
          earliest sender doc).1 sender contract event_name).isSome = true →
        earliest - 1 ≤ cursorLast (update_mech_events_db chain interrupt contract
          event_name earliest sender doc).1 sender contract event_name)
    ∧ (∀ fb ∈ scanFromBlocks chain BLOCKS_CHUNK_SIZE EXCLUDED_BLOCKS_THRESHOLD
        NUM_EXCLUDED_BLOCKS contract event_name earliest sender doc,
        earliest ≤ fb) := by
  have hc : (0 : Int) < BLOCKS_CHUNK_SIZE := by decide
  obtain ⟨fbs2, hsub, hfst⟩ := update_core_fst chain interrupt BLOCKS_CHUNK_SIZE
    EXCLUDED_BLOCKS_THRESHOLD NUM_EXCLUDED_BLOCKS contract event_name earliest
    sender doc
  have hdb : (update_mech_events_db chain interrupt contract event_name earliest
      sender doc).1 =
      (scan_chunks chain sender contract event_name BLOCKS_CHUNK_SIZE
        (adjustedEnding chain.latestBlock
          (startingBlockOf doc sender contract event_name earliest)
          EXCLUDED_BLOCKS_THRESHOLD NUM_EXCLUDED_BLOCKS)
        fbs2 doc).1 := hfst
  have hstart : cursorLast doc sender contract event_name + 1 ≤
      startingBlockOf doc sender contract event_name earliest := le_max_right _ _
  have hstart2 : earliest ≤ startingBlockOf doc sender contract event_name earliest :=
    le_max_left _ _
  rcases scan_docs_last chain sender contract event_name BLOCKS_CHUNK_SIZE
      (adjustedEnding chain.latestBlock
        (startingBlockOf doc sender contract event_name earliest)
        EXCLUDED_BLOCKS_THRESHOLD NUM_EXCLUDED_BLOCKS) fbs2 doc
    with hsame | ⟨fb, hmem, hlastEq⟩
  · rw [← hdb] at hsame
    refine ⟨?_, ?_, ?_⟩
    · rw [hsame]
    · intro hpre hsome
      rw [hsame] at hsome ⊢
      exact hpre hsome
    · intro fb hm
      have hbounds := rangeList_mem _ _ _ fb hc hm
      omega
  · rw [← hdb] at hlastEq
    have hbounds := rangeList_mem _ _ _ fb hc (hsub fb hmem)
    refine ⟨?_, ?_, ?_⟩
    · rw [hlastEq]
      omega
    · intro _ _
      rw [hlastEq]
      omega
    · intro fb' hm
      have hbounds' := rangeList_mem _ _ _ fb' hc hm
      omega

/-- C4 witness: on the seeded document (checkpoint 5, deployment block
1) the scan is monotone and preserves the invariant. -/
theorem C4_witness :
    (((getCursorOpt cexSeedDoc "S" "C" "Request").isSome = true →
        (1 : Int) - 1 ≤ cursorLast cexSeedDoc "S" "C" "Request")
    ∧ ((getCursorOpt (update_mech_events_db cexChain none "C" "Request" 1 "S"
          cexSeedDoc).1 "S" "C" "Request").isSome = true →
        (1 : Int) - 1 ≤ cursorLast (update_mech_events_db cexChain none "C" "Request"
          1 "S" cexSeedDoc).1 "S" "C" "Request")) :=
  ⟨fun _ => by decide,
    (C4_monotone_invariant cexChain none "C" "Request" "S" 1 cexSeedDoc).2.1
      (fun _ => by decide)⟩

/-- An uninterrupted update whose scan raised nothing returns the
scanned document and no exception. -/
theorem update_none_of_scan_ok (chain : Chain) (cSize th margin : Int)
    (contract event_name : String) (earliest : Int) (sender : String)
    (doc d : MechEventsData)
    (hscan : scan_chunks chain sender contract event_name cSize
        (adjustedEnding chain.latestBlock
          (startingBlockOf doc sender contract event_name earliest) th margin)
        (rangeList (startingBlockOf doc sender contract event_name earliest)
          (adjustedEnding chain.latestBlock
            (startingBlockOf doc sender contract event_name earliest) th margin)
          cSize) doc = (d, false)) :
    update_mech_events_core chain none cSize th margin contract event_name earliest
      sender doc = (d, none) := by
  unfold update_mech_events_core
  simp [hscan]

/-- An uninterrupted update whose scan raised an exception returns the
partially merged document and the caught error. -/
theorem update_none_of_scan_err (chain : Chain) (cSize th margin : Int)
    (contract event_name : String) (earliest : Int) (sender : String)
    (doc d : MechEventsData)
    (hscan : scan_chunks chain sender contract event_name cSize
        (adjustedEnding chain.latestBlock
          (startingBlockOf doc sender contract event_name earliest) th margin)
        (rangeList (startingBlockOf doc sender contract event_name earliest)
          (adjustedEnding chain.latestBlock
            (startingBlockOf doc sender contract event_name earliest) th margin)
          cSize) doc = (d, true)) :
    update_mech_events_core chain none cSize th margin contract event_name earliest
      sender doc = (d, some ScanExc.errorExc) := by
  unfold update_mech_events_core
  simp [hscan]

/-- C9: re-running a completed scan against an unchanged chain is a
fixed point — the document (hence its serialized bytes) is unchanged and
no exception arises; and any scan whose iteration range is empty
(startingBlock ≥ endingBlock, including when the near-head margin pushes
the ending below the start) is a successful no-op on the document. -/
theorem C9_idempotent (chain : Chain) (contract event_name sender : String)
    (earliest : Int) (doc doc1 : MechEventsData)
    (h1 : update_mech_events_db chain none contract event_name earliest sender doc =
      (doc1, none)) :
    update_mech_events_db chain none contract event_name earliest sender doc1 =
      (doc1, none)
    ∧ (∀ doc' : MechEventsData,
        adjustedEnding chain.latestBlock
          (startingBlockOf doc' sender contract event_name earliest)
          EXCLUDED_BLOCKS_THRESHOLD NUM_EXCLUDED_BLOCKS ≤
          startingBlockOf doc' sender contract event_name earliest →
        update_mech_events_db chain none contract event_name earliest sender doc' =
          (doc', none)) := by
  have hc : (0 : Int) < BLOCKS_CHUNK_SIZE := by decide
  have hempty : ∀ doc' : MechEventsData,
      adjustedEnding chain.latestBlock
        (startingBlockOf doc' sender contract event_name earliest)
        EXCLUDED_BLOCKS_THRESHOLD NUM_EXCLUDED_BLOCKS ≤
        startingBlockOf doc' sender contract event_name earliest →
      update_mech_events_db chain none contract event_name earliest sender doc' =
        (doc', none) := by
    intro doc' hle
    have hnil : rangeList (startingBlockOf doc' sender contract event_name earliest)
        (adjustedEnding chain.latestBlock
          (startingBlockOf doc' sender contract event_name earliest)
          EXCLUDED_BLOCKS_THRESHOLD NUM_EXCLUDED_BLOCKS) BLOCKS_CHUNK_SIZE = [] :=
      rangeList_nil _ _ _ hle
    exact update_none_of_scan_ok chain BLOCKS_CHUNK_SIZE EXCLUDED_BLOCKS_THRESHOLD
      NUM_EXCLUDED_BLOCKS contract event_name earliest sender doc' doc'
      (by rw [hnil]; exact scan_chunks_nil _ _ _ _ _ _ _)
  refine ⟨?_, hempty⟩
  rcases hscan : scan_chunks chain sender contract event_name BLOCKS_CHUNK_SIZE
      (adjustedEnding chain.latestBlock
        (startingBlockOf doc sender contract event_name earliest)
        EXCLUDED_BLOCKS_THRESHOLD NUM_EXCLUDED_BLOCKS)
      (rangeList (startingBlockOf doc sender contract event_name earliest)
        (adjustedEnding chain.latestBlock
          (startingBlockOf doc sender contract event_name earliest)
          EXCLUDED_BLOCKS_THRESHOLD NUM_EXCLUDED_BLOCKS) BLOCKS_CHUNK_SIZE)
      doc with ⟨d, b⟩
  cases b with
  | true =>
      have hupd := update_none_of_scan_err chain BLOCKS_CHUNK_SIZE
        EXCLUDED_BLOCKS_THRESHOLD NUM_EXCLUDED_BLOCKS contract event_name earliest
        sender doc d hscan
      have h1' : update_mech_events_core chain none BLOCKS_CHUNK_SIZE
          EXCLUDED_BLOCKS_THRESHOLD NUM_EXCLUDED_BLOCKS contract event_name earliest
          sender doc = (doc1, none) := h1
      rw [hupd] at h1'
      injection h1' with hd hexc
      cases hexc
  | false =>
      have hupd := update_none_of_scan_ok chain BLOCKS_CHUNK_SIZE
        EXCLUDED_BLOCKS_THRESHOLD NUM_EXCLUDED_BLOCKS contract event_name earliest
        sender doc d hscan
      have h1' : update_mech_events_core chain none BLOCKS_CHUNK_SIZE
          EXCLUDED_BLOCKS_THRESHOLD NUM_EXCLUDED_BLOCKS contract event_name earliest
          sender doc = (doc1, none) := h1
      rw [hupd] at h1'
      injection h1' with hd hexc
      subst hd
      by_cases hse : startingBlockOf doc sender contract event_name earliest <
          adjustedEnding chain.latestBlock
            (startingBlockOf doc sender contract event_name earliest)
            EXCLUDED_BLOCKS_THRESHOLD NUM_EXCLUDED_BLOCKS
      · have hlast := scan_last_of_no_err chain sender contract event_name
          BLOCKS_CHUNK_SIZE
          (adjustedEnding chain.latestBlock
            (startingBlockOf doc sender contract event_name earliest)
            EXCLUDED_BLOCKS_THRESHOLD NUM_EXCLUDED_BLOCKS) hc
          (startingBlockOf doc sender contract event_name earliest) doc d hse hscan
        apply hempty d
        have hle : earliest ≤ startingBlockOf doc sender contract event_name earliest :=
          le_max_left _ _
        unfold startingBlockOf cursorLast at hlast hle ⊢
        rw [hlast]
        simp only [adjustedEnding, EXCLUDED_BLOCKS_THRESHOLD, NUM_EXCLUDED_BLOCKS,
          BLOCKS_CHUNK_SIZE] at hse hle ⊢
        split_ifs at hse hle ⊢ <;> omega
      · have hnil : rangeList (startingBlockOf doc sender contract event_name earliest)
            (adjustedEnding chain.latestBlock
              (startingBlockOf doc sender contract event_name earliest)
              EXCLUDED_BLOCKS_THRESHOLD NUM_EXCLUDED_BLOCKS) BLOCKS_CHUNK_SIZE = [] :=
          rangeList_nil _ _ _ (by omega)
        rw [hnil, scan_chunks_nil] at hscan
        injection hscan with hdd hb
        rw [← hdd]
        exact hempty doc (by omega)

/-- C9 witness: two consecutive runs over the seeded document and the
single-log chain; the second run returns the first run's document
unchanged with no exception. -/
theorem C9_witness :
    update_mech_events_db cexChain none "C" "Request" 1 "S" cexSeedDoc =
      ((update_mech_events_db cexChain none "C" "Request" 1 "S" cexSeedDoc).1, none)
    ∧ update_mech_events_db cexChain none "C" "Request" 1 "S"
        (update_mech_events_db cexChain none "C" "Request" 1 "S" cexSeedDoc).1 =
      ((update_mech_events_db cexChain none "C" "Request" 1 "S" cexSeedDoc).1, none) :=
  ⟨by decide,
    (C9_idempotent cexChain "C" "Request" "S" 1 cexSeedDoc
      (update_mech_events_db cexChain none "C" "Request" 1 "S" cexSeedDoc).1
      (by decide)).1⟩


/-- Loading never raises unless the stored file is unparseable. -/
theorem read_total (ct : String) (fs : FileStore)
    (h : fs.main ≠ StoredFile.malformed) :
    ∃ pr, read_mech_events_data_from_file ct fs = Except.ok pr := by
  rcases fs with ⟨m, bks⟩
  cases m with
  | missing => exact ⟨_, rfl⟩
  | malformed => exact absurd rfl h
  | parsed d =>
      by_cases hv : d.db_version < MECH_EVENTS_DB_VERSION
      · refine ⟨(freshDoc, ⟨StoredFile.missing, bks ++ [(oldDbFilename ct, d)]⟩), ?_⟩
        unfold read_mech_events_data_from_file
        simp [hv]
      · refine ⟨(d, ⟨StoredFile.parsed d, bks⟩), ?_⟩
        unfold read_mech_events_data_from_file
        simp [hv]

/-- A contract's guarded scan-and-save never raises when the store was
readable: whatever the scan's outcome (success, caught error, caught
cancellation), the call returns normally with the caught exception's
warning and the forced save of the final in-memory document. -/
theorem update_run_ok (chain : Chain) (interrupt : Option Nat) (now : Int)
    (ct contract event_name sender : String) (earliest : Int) (st : RunState)
    (doc0 : MechEventsData) (fs1 : FileStore)
    (hread : read_mech_events_data_from_file ct st.fs = Except.ok (doc0, fs1)) :
    update_mech_events_db_run chain interrupt now ct contract event_name earliest
      sender st =
      Except.ok
        (⟨⟨StoredFile.parsed
            (update_mech_events_db chain interrupt contract event_name earliest
              sender doc0).1, fs1.backups⟩, now⟩,
          scanWarnings contract
            (update_mech_events_db chain interrupt contract event_name earliest
              sender doc0).2) := by
  unfold update_mech_events_db_run
  rw [hread]
  unfold write_mech_events_data
  simp

/-- The orchestrator's fold over any list of configured contracts
completes from any readable store, and leaves a store whose main file
was just written (hence parseable). -/
theorem fold_contracts_ok (chain : Chain) (interrupts : Nat → Option Nat)
    (now : Int) (ct event_name sender : String) :
    ∀ (ps : List (Nat × (String × Int))) (st : RunState) (ws : List String),
      st.fs.main ≠ StoredFile.malformed →
      ∃ st' ws',
        ps.foldl (scan_contract_step chain interrupts now ct event_name sender)
          (Except.ok (st, ws)) = Except.ok (st', ws')
        ∧ st'.fs.main ≠ StoredFile.malformed := by
  intro ps
  induction ps with
  | nil => intro st ws h; exact ⟨st, ws, rfl, h⟩
  | cons p ps ih =>
      intro st ws h
      obtain ⟨⟨doc0, fs1⟩, hread⟩ := read_total ct st.fs h
      have hstep := update_run_ok chain (interrupts p.1) now ct p.2.1 event_name
        sender p.2.2 st doc0 fs1 hread
      rw [List.foldl_cons]
      have hred : scan_contract_step chain interrupts now ct event_name sender
          (Except.ok (st, ws)) p =
          Except.ok
            (⟨⟨StoredFile.parsed
                (update_mech_events_db chain (interrupts p.1) p.2.1 event_name
                  p.2.2 sender doc0).1, fs1.backups⟩, now⟩,
              ws ++ scanWarnings p.2.1
                (update_mech_events_db chain (interrupts p.1) p.2.1 event_name
                  p.2.2 sender doc0).2) := by
        simp [scan_contract_step, hstep]
      rw [hred]
      exact ih _ _ (by simp)

/-- C8: every exception during one contract's scan — user cancellation
(caught distinctly) as well as any other in-scan error — is caught at
contract-scan granularity: the call still returns normally, reports
exactly one warning whose text names the affected contract, and is
followed unconditionally by the forced checkpoint save of the final
in-memory document (success, failure and cancellation alike); and the
orchestrator consequently completes its pass over all configured
contracts from any readable store instead of aborting the run. -/
theorem C8_failure_isolation (chain : Chain) (interrupt : Option Nat) (now : Int)
    (ct contract event_name sender : String) (earliest : Int) (st : RunState)
    (doc0 : MechEventsData) (fs1 : FileStore)
    (hread : read_mech_events_data_from_file ct st.fs = Except.ok (doc0, fs1)) :
    update_mech_events_db_run chain interrupt now ct contract event_name earliest
      sender st =
      Except.ok
        (⟨⟨StoredFile.parsed
            (update_mech_events_db chain interrupt contract event_name earliest
              sender doc0).1, fs1.backups⟩, now⟩,
          scanWarnings contract
            (update_mech_events_db chain interrupt contract event_name earliest
              sender doc0).2)
    ∧ (∀ exc : ScanExc,
        (update_mech_events_db chain interrupt contract event_name earliest sender
          doc0).2 = some exc →
        ∃ w a b2,
          scanWarnings contract
            (update_mech_events_db chain interrupt contract event_name earliest
              sender doc0).2 = [w]
          ∧ w = a ++ contract ++ b2)
    ∧ (∀ (interrupts : Nat → Option Nat) (st0 : RunState),
        st0.fs.main ≠ StoredFile.malformed →
        ∃ out, get_mech_events_run chain interrupts now ct sender event_name st0 =
          Except.ok out) := by
  refine ⟨update_run_ok chain interrupt now ct contract event_name sender earliest
    st doc0 fs1 hread, ?_, ?_⟩
  · intro exc hexc
    rw [hexc]
    cases exc with
    | cancelled =>
        exact ⟨cancelWarning contract,
          "WARNING: The update of the local Mech events database was cancelled (contract ",
          "). Therefore, the Mech calls and costs might not be reflected accurately. You may attempt to rerun this script to retry synchronizing the database.",
          rfl, rfl⟩
    | errorExc =>
        exact ⟨errorWarning contract,
          "WARNING: An error occurred while updating the local Mech events database (contract ",
          "). Therefore, the Mech calls and costs might not be reflected accurately. You may attempt to rerun this script to retry synchronizing the database.",
          rfl, rfl⟩
  · intro interrupts st0 h0
    unfold get_mech_events_run
    obtain ⟨st', ws', hfold, hm⟩ := fold_contracts_ok chain interrupts now ct
      event_name sender MECH_CONTRACT_ADDRESSES.enum st0 [] h0
    rw [hfold]
    obtain ⟨⟨doc, fs2⟩, hread2⟩ := read_total ct st'.fs hm
    simp only [hread2]
    exact ⟨_, rfl⟩

/-- C8 witness: from a fresh store, a contract scan returns normally
and the orchestrator completes over the configured contracts. -/
theorem C8_witness :
    read_mech_events_data_from_file "t" wRunState.fs =
      Except.ok (freshDoc, wRunState.fs)
    ∧ ∃ out, get_mech_events_run cexChain (fun _ => none) 0 "t" "S" "Request"
        wRunState = Except.ok out :=
  ⟨rfl,
    (C8_failure_isolation cexChain none 0 "t" "C" "Request" "S" 1 wRunState
      freshDoc wRunState.fs rfl).2.2 (fun _ => none) wRunState (by decide)⟩

/-- C2 counterexample: the claimed ordering is wrong.  A chunk body
first advances the cursor (line 244) and only then merges the chunk's
matching events (lines 246-253): `process_chunk` IS, definitionally,
the merge applied AFTER `advance_cursor`.  Concretely, scanning chunk
[1, 5001] of a provider holding a matching "Request" log at block 11,
the in-memory document reached between those two steps has
`lastProcessedBlock = 5001` — covering the chunk — while the chunk's
matching event "X" is not yet merged (it appears only in the completed
chunk state), so a reachable in-memory state does have a cursor
covering a chunk whose events are merged only partially (here: not at
all). -/
theorem C2_counterexample :
    process_chunk cexChain "S" "C" "Request" BLOCKS_CHUNK_SIZE 10006 freshDoc 1 =
      merge_chunk_events cexChain "S" "C" "Request"
        ((cexChain.fetchLogs "C" "Request" 1 5001).filter
          (fun ev => decide (ev.sender = "S")))
        (advance_cursor freshDoc "S" "C" "Request" 5001)
    ∧ cursorLast (advance_cursor freshDoc "S" "C" "Request" 5001) "S" "C" "Request" =
        5001
    ∧ (5001 : Int) = min (1 + BLOCKS_CHUNK_SIZE) 10006
    ∧ ¬ eventStored (advance_cursor freshDoc "S" "C" "Request" 5001) "S" "C"
        "Request" "X"
    ∧ eventStored (process_chunk cexChain "S" "C" "Request" BLOCKS_CHUNK_SIZE 10006
        freshDoc 1).1 "S" "C" "Request" "X"
    ∧ cexEvX.blockNumber ≤ 5001 := by
  refine ⟨rfl, ?_, ?_, ?_, ?_, ?_⟩ <;> decide

/-- A well-formed entry's merge step stores its record by assignment
under its request id. -/
theorem merge_one_ok (chain : Chain) (s c : String) (doc : MechEventsData)
    (ev : RawLogEntry) (hev : ev.event = mechRequestEventName) :
    merge_one chain s c mechRequestEventName (doc, false) ev =
      (setCursor doc s c mechRequestEventName
        { getCursor doc s c mechRequestEventName with
          mech_events := alist_set (getCursor doc s c mechRequestEventName).mech_events
            ev.requestId
            (mechRequestRecord chain.ipfsFetch ev (chain.blockTimestamp ev.blockNumber)) },
        false) := by
  have hinit : mechRequestInit chain.ipfsFetch ev (chain.blockTimestamp ev.blockNumber) =
      Except.ok (mechRequestRecord chain.ipfsFetch ev (chain.blockTimestamp ev.blockNumber)) := by
    unfold mechRequestInit
    rw [if_pos hev.symm]
  unfold merge_one
  simp [hinit]
  rfl

/-- Merging a list of well-formed entries raises nothing and stores
exactly the incoming request ids on top of the existing ones. -/
theorem merge_mem (chain : Chain) (s c : String) (evs : List RawLogEntry)
    (hwf : ∀ ev ∈ evs, ev.event = mechRequestEventName) :
    ∀ doc : MechEventsData,
      (merge_chunk_events chain s c mechRequestEventName evs doc).2 = false
      ∧ (∀ id : String,
          eventStored (merge_chunk_events chain s c mechRequestEventName evs doc).1
            s c mechRequestEventName id ↔
          (eventStored doc s c mechRequestEventName id ∨
            ∃ ev ∈ evs, ev.requestId = id)) := by
  induction evs with
  | nil =>
      intro doc
      refine ⟨rfl, fun id => ?_⟩
      simp [merge_chunk_events]
  | cons ev evs ih =>
      intro doc
      have hev : ev.event = mechRequestEventName := hwf ev (List.mem_cons_self ev evs)
      have hwf' : ∀ ev' ∈ evs, ev'.event = mechRequestEventName :=
        fun ev' h => hwf ev' (List.mem_cons_of_mem ev h)
      have hone := merge_one_ok chain s c doc ev hev
      have hcons : merge_chunk_events chain s c mechRequestEventName (ev :: evs) doc =
          merge_chunk_events chain s c mechRequestEventName evs
            (setCursor doc s c mechRequestEventName
              { getCursor doc s c mechRequestEventName with
                mech_events := alist_set
                  (getCursor doc s c mechRequestEventName).mech_events ev.requestId
                  (mechRequestRecord chain.ipfsFetch ev
                    (chain.blockTimestamp ev.blockNumber)) }) := by
        unfold merge_chunk_events
        rw [List.foldl_cons, hone]
      obtain ⟨ihflag, ihmem⟩ := ih hwf'
        (setCursor doc s c mechRequestEventName
          { getCursor doc s c mechRequestEventName with
            mech_events := alist_set
              (getCursor doc s c mechRequestEventName).mech_events ev.requestId
              (mechRequestRecord chain.ipfsFetch ev
                (chain.blockTimestamp ev.blockNumber)) })
      refine ⟨by rw [hcons]; exact ihflag, fun id => ?_⟩
      rw [hcons, ihmem id]
      unfold eventStored
      rw [getCursor_setCursor]
      by_cases hid : ev.requestId = id
      · subst hid
        simp [alist_get_set_self]
      · rw [show ({ getCursor doc s c mechRequestEventName with
            mech_events := alist_set (getCursor doc s c mechRequestEventName).mech_events
              ev.requestId
              (mechRequestRecord chain.ipfsFetch ev
                (chain.blockTimestamp ev.blockNumber)) } :
            EventTypeCursor).mech_events =
          alist_set (getCursor doc s c mechRequestEventName).mech_events ev.requestId
            (mechRequestRecord chain.ipfsFetch ev (chain.blockTimestamp ev.blockNumber))
          from rfl]
        rw [alist_get_set_ne _ _ _ _ hid]
        constructor
        · rintro (h | ⟨ev', hmem, hcid⟩)
          · exact Or.inl h
          · exact Or.inr ⟨ev', List.mem_cons_of_mem ev hmem, hcid⟩
        · rintro (h | ⟨ev', hmem, hcid⟩)
          · exact Or.inl h
          · rcases List.mem_cons.mp hmem with heq | hmem'
            · subst heq
              exact absurd hcid hid
            · exact Or.inr ⟨ev', hmem', hcid⟩

-- Key-uniqueness is preserved through merges and scans.

theorem merge_one_nodup (chain : Chain) (s c e : String) (acc : MechEventsData × Bool)
    (ev : RawLogEntry) (h : eventKeysNodup acc.1 s c e) :
    eventKeysNodup (merge_one chain s c e acc ev).1 s c e := by
  unfold merge_one
  rcases acc with ⟨d, b⟩
  cases b
  · simp only [Bool.false_eq_true, if_false]
    by_cases h2 : e = mechRequestEventName
    · subst h2
      rcases h3 : mechRequestInit chain.ipfsFetch ev (chain.blockTimestamp ev.blockNumber)
        with r | r
      · simpa using h
      · simp only [h3, if_true]
        unfold eventKeysNodup at h ⊢
        rw [getCursor_setCursor]
        exact alist_set_keys_nodup _ _ _ h
    · simpa [h2] using h
  · simpa using h

theorem foldl_merge_nodup (chain : Chain) (s c e : String) :
    ∀ (evs : List RawLogEntry) (acc : MechEventsData × Bool),
      eventKeysNodup acc.1 s c e →
      eventKeysNodup (evs.foldl (merge_one chain s c e) acc).1 s c e := by
  intro evs
  induction evs with
  | nil => intro acc h; exact h
  | cons ev evs ih =>
      intro acc h
      rw [List.foldl_cons]
      exact ih _ (merge_one_nodup chain s c e acc ev h)

theorem advance_nodup (doc : MechEventsData) (s c e : String) (tb : Int)
    (h : eventKeysNodup doc s c e) :
    eventKeysNodup (advance_cursor doc s c e tb) s c e := by
  unfold eventKeysNodup at h ⊢
  rw [events_advance]
  exact h

theorem process_chunk_nodup (chain : Chain) (s c e : String) (cSize ending : Int)
    (doc : MechEventsData) (fb : Int) (h : eventKeysNodup doc s c e) :
    eventKeysNodup (process_chunk chain s c e cSize ending doc fb).1 s c e := by
  unfold process_chunk merge_chunk_events
  exact foldl_merge_nodup chain s c e _ _ (advance_nodup doc s c e _ h)

theorem scan_chunks_nodup (chain : Chain) (s c e : String) (cSize ending : Int) :
    ∀ (fbs : List Int) (doc : MechEventsData), eventKeysNodup doc s c e →
      eventKeysNodup (scan_chunks chain s c e cSize ending fbs doc).1 s c e := by
  intro fbs
  induction fbs with
  | nil => intro doc h; exact h
  | cons fb fbs ih =>
      intro doc h
      rw [scan_chunks_cons]
      rcases hp : process_chunk chain s c e cSize ending doc fb with ⟨d1, b1⟩
      have hd1 : eventKeysNodup d1 s c e := by
        have := process_chunk_nodup chain s c e cSize ending doc fb h
        rw [hp] at this
        exact this
      cases b1
      · simp only [Bool.false_eq_true, if_false]
        exact ih d1 hd1
      · simpa using hd1

theorem update_core_nodup (chain : Chain) (interrupt : Option Nat)
    (cSize th margin : Int) (contract event_name : String) (earliest : Int)
    (sender : String) (doc : MechEventsData)
    (h : eventKeysNodup doc sender contract event_name) :
    eventKeysNodup (update_mech_events_core chain interrupt cSize th margin contract
      event_name earliest sender doc).1 sender contract event_name := by
  obtain ⟨fbs2, hsub, hfst⟩ := update_core_fst chain interrupt cSize th margin
    contract event_name earliest sender doc
  rw [hfst]
  exact scan_chunks_nodup chain sender contract event_name cSize _ fbs2 doc h

/-- The scan of a list of chunks depends on the ending block only
through each chunk's `min (fb + cSize) ending` upper bound. -/
theorem scan_eq_endings (chain : Chain) (s c e : String) (cSize : Int)
    (E1 E2 : Int) :
    ∀ (fbs : List Int) (doc : MechEventsData),
      (∀ fb ∈ fbs, min (fb + cSize) E1 = min (fb + cSize) E2) →
      scan_chunks chain s c e cSize E1 fbs doc =
        scan_chunks chain s c e cSize E2 fbs doc := by
  intro fbs
  induction fbs with
  | nil => intro doc hmins; rfl
  | cons fb fbs ih =>
      intro doc hmins
      have hp : process_chunk chain s c e cSize E1 doc fb =
          process_chunk chain s c e cSize E2 doc fb := by
        unfold process_chunk
        rw [hmins fb (List.mem_cons_self fb fbs)]
      rw [scan_chunks_cons, scan_chunks_cons, hp]
      rcases hpe : process_chunk chain s c e cSize E2 doc fb with ⟨d1, b1⟩
      cases b1
      · simp only [Bool.false_eq_true, if_false]
        exact ih d1 (fun fb' h => hmins fb' (List.mem_cons_of_mem fb h))
      · simp

/-- Over a block-determined log source, one chunk raises nothing and
stores exactly the matching (sender-filtered, "Request") request ids of
its inclusive range on top of the existing ones. -/
theorem process_chunk_mem (L : Int) (logs : List RawLogEntry) (bts : Int → Int)
    (ipfs : String → Option (List (String × String))) (sender contract : String)
    (cSize ending : Int) (doc : MechEventsData) (fb : Int)
    (hwf : ∀ ev ∈ logs, ev.event = mechRequestEventName) :
    (process_chunk (chainOfLogs L logs bts ipfs) sender contract mechRequestEventName
      cSize ending doc fb).2 = false
    ∧ ∀ id : String,
        eventStored (process_chunk (chainOfLogs L logs bts ipfs) sender contract
          mechRequestEventName cSize ending doc fb).1 sender contract
          mechRequestEventName id ↔
        (eventStored doc sender contract mechRequestEventName id ∨
          ∃ ev ∈ logs, ev.sender = sender ∧ ev.requestId = id ∧
            fb ≤ ev.blockNumber ∧ ev.blockNumber ≤ min (fb + cSize) ending) := by
  have hchar : ∀ ev : RawLogEntry,
      ev ∈ ((chainOfLogs L logs bts ipfs).fetchLogs contract mechRequestEventName fb
        (min (fb + cSize) ending)).filter (fun ev => decide (ev.sender = sender)) ↔
      (ev ∈ logs ∧ ev.sender = sender ∧ fb ≤ ev.blockNumber ∧
        ev.blockNumber ≤ min (fb + cSize) ending) := by
    intro ev
    show ev ∈ (logs.filter _).filter _ ↔ _
    simp only [List.mem_filter, Bool.and_eq_true, decide_eq_true_eq]
    tauto
  have hwf2 : ∀ ev ∈ ((chainOfLogs L logs bts ipfs).fetchLogs contract
      mechRequestEventName fb (min (fb + cSize) ending)).filter
      (fun ev => decide (ev.sender = sender)), ev.event = mechRequestEventName := by
    intro ev h
    exact hwf ev ((hchar ev).mp h).1
  obtain ⟨hflag, hmem⟩ := merge_mem (chainOfLogs L logs bts ipfs) sender contract _
    hwf2 (advance_cursor doc sender contract mechRequestEventName
      (min (fb + cSize) ending))
  refine ⟨hflag, fun id => ?_⟩
  have hgoal := hmem id
  unfold process_chunk
  rw [hgoal]
  have hadv : eventStored (advance_cursor doc sender contract mechRequestEventName
      (min (fb + cSize) ending)) sender contract mechRequestEventName id ↔
      eventStored doc sender contract mechRequestEventName id := by
    unfold eventStored
    rw [events_advance]
  rw [hadv]
  constructor
  · rintro (h | ⟨ev, hmemf, hid⟩)
    · exact Or.inl h
    · obtain ⟨hlg, hsend, hlo, hhi⟩ := (hchar ev).mp hmemf
      exact Or.inr ⟨ev, hlg, hsend, hid, hlo, hhi⟩
  · rintro (h | ⟨ev, hlg, hsend, hid, hlo, hhi⟩)
    · exact Or.inl h
    · exact Or.inr ⟨ev, (hchar ev).mpr ⟨hlg, hsend, hlo, hhi⟩, hid⟩

/-- Over a block-determined log source, a full scan of a nonempty range
raises nothing and stores exactly the matching request ids of
`[start, e]` on top of the existing ones. -/
theorem scan_range_mem (L : Int) (logs : List RawLogEntry) (bts : Int → Int)
    (ipfs : String → Option (List (String × String))) (sender contract : String)
    (cSize : Int) (hc : 0 < cSize)
    (hwf : ∀ ev ∈ logs, ev.event = mechRequestEventName) (e : Int) :
    ∀ (fuel : Nat) (start : Int) (doc : MechEventsData),
      (e - start).toNat ≤ fuel → start < e →
      (scan_chunks (chainOfLogs L logs bts ipfs) sender contract mechRequestEventName
        cSize e (rangeList start e cSize) doc).2 = false
      ∧ ∀ id : String,
          eventStored (scan_chunks (chainOfLogs L logs bts ipfs) sender contract
            mechRequestEventName cSize e (rangeList start e cSize) doc).1 sender
            contract mechRequestEventName id ↔
          (eventStored doc sender contract mechRequestEventName id ∨
            ∃ ev ∈ logs, ev.sender = sender ∧ ev.requestId = id ∧
              start ≤ ev.blockNumber ∧ ev.blockNumber ≤ e) := by
  intro fuel
  induction fuel with
  | zero =>
      intro start doc hfuel hlt
      omega
  | succ f ih =>
      intro start doc hfuel hlt
      rw [rangeList_cons start e cSize hc hlt, scan_chunks_cons]
      obtain ⟨hpflag, hpmem⟩ := process_chunk_mem L logs bts ipfs sender contract
        cSize e doc start hwf
      rcases hp : process_chunk (chainOfLogs L logs bts ipfs) sender contract
          mechRequestEventName cSize e doc start with ⟨d1, b1⟩
      rw [hp] at hpflag hpmem
      simp only [] at hpflag
      simp only [] at hpmem
      subst hpflag
      simp only [Bool.false_eq_true, if_false]
      by_cases h2 : start + cSize < e
      · obtain ⟨ihflag, ihmem⟩ := ih (start + cSize) d1 (by omega) h2
        refine ⟨ihflag, fun id => ?_⟩
        rw [ihmem id, hpmem id]
        have hmin : min (start + cSize) e = start + cSize := by omega
        rw [hmin]
        constructor
        · rintro ((h | ⟨ev, hlg, hsend, hid, hlo, hhi⟩) | ⟨ev, hlg, hsend, hid, hlo, hhi⟩)
          · exact Or.inl h
          · exact Or.inr ⟨ev, hlg, hsend, hid, by omega, by omega⟩
          · exact Or.inr ⟨ev, hlg, hsend, hid, by omega, by omega⟩
        · rintro (h | ⟨ev, hlg, hsend, hid, hlo, hhi⟩)
          · exact Or.inl (Or.inl h)
          · by_cases hb : ev.blockNumber ≤ start + cSize
            · exact Or.inl (Or.inr ⟨ev, hlg, hsend, hid, by omega, by omega⟩)
            · exact Or.inr ⟨ev, hlg, hsend, hid, by omega, by omega⟩
      · rw [rangeList_nil (start + cSize) e cSize (by omega), scan_chunks_nil]
        refine ⟨rfl, fun id => ?_⟩
        simp only []
        rw [hpmem id]
        have hmin : min (start + cSize) e = e := by omega
        rw [hmin]

/-- An update cancelled at the chunk boundary before the k-th chunk of
a longer range returns the partial scan's document and the caught
KeyboardInterrupt. -/
theorem update_some_of_scan_ok (chain : Chain) (cSize th margin : Int)
    (contract event_name : String) (earliest : Int) (sender : String)
    (doc d : MechEventsData) (k : Nat)
    (hk : k < (rangeList (startingBlockOf doc sender contract event_name earliest)
        (adjustedEnding chain.latestBlock
          (startingBlockOf doc sender contract event_name earliest) th margin)
        cSize).length)
    (hscan : scan_chunks chain sender contract event_name cSize
        (adjustedEnding chain.latestBlock
          (startingBlockOf doc sender contract event_name earliest) th margin)
        ((rangeList (startingBlockOf doc sender contract event_name earliest)
          (adjustedEnding chain.latestBlock
            (startingBlockOf doc sender contract event_name earliest) th margin)
          cSize).take k) doc = (d, false)) :
    update_mech_events_core chain (some k) cSize th margin contract event_name
      earliest sender doc = (d, some ScanExc.cancelled) := by
  unfold update_mech_events_core
  simp [hscan, hk]

/-- C2 amended: the code advances the cursor BEFORE merging each
chunk's events (see the counterexample), so the claimed merge-then-
advance ordering fails mid-chunk; what does hold is recovery at chunk
granularity: for a block-determined simulated log source of well-formed
"Request" logs, a user cancellation at the chunk boundary after chunk
k ≥ 1 of a longer scan (with both runs far enough from the chain head
that the near-head margin does not truncate them) leaves a resumable
checkpoint, and the re-run completes with no exception and yields
exactly the events of the full range [startingBlock, latestBlock] —
no omissions, and no duplicate ids (the event map's keys stay
duplicate-free). -/
theorem C2_cancellation_recovery (L : Int) (logs : List RawLogEntry)
    (bts : Int → Int) (ipfs : String → Option (List (String × String)))
    (contract sender : String) (earliest : Int) (doc : MechEventsData) (k : Nat)
    (hwf : ∀ ev ∈ logs, ev.event = mechRequestEventName)
    (hk1 : 1 ≤ k)
    (hklen : k < (scanFromBlocks (chainOfLogs L logs bts ipfs) BLOCKS_CHUNK_SIZE
        EXCLUDED_BLOCKS_THRESHOLD NUM_EXCLUDED_BLOCKS contract mechRequestEventName
        earliest sender doc).length)
    (hM1 : EXCLUDED_BLOCKS_THRESHOLD ≤
        L - startingBlockOf doc sender contract mechRequestEventName earliest)
    (hM2 : EXCLUDED_BLOCKS_THRESHOLD ≤
        L - (startingBlockOf doc sender contract mechRequestEventName earliest
          + (k : Int) * BLOCKS_CHUNK_SIZE + 1)) :
    (update_mech_events_db (chainOfLogs L logs bts ipfs) (some k) contract
        mechRequestEventName earliest sender doc).2 = some ScanExc.cancelled
    ∧ (update_mech_events_db (chainOfLogs L logs bts ipfs) none contract
        mechRequestEventName earliest sender
        (update_mech_events_db (chainOfLogs L logs bts ipfs) (some k) contract
          mechRequestEventName earliest sender doc).1).2 = none
    ∧ (∀ id : String,
        eventStored (update_mech_events_db (chainOfLogs L logs bts ipfs) none
          contract mechRequestEventName earliest sender
          (update_mech_events_db (chainOfLogs L logs bts ipfs) (some k) contract
            mechRequestEventName earliest sender doc).1).1 sender contract
          mechRequestEventName id ↔
        (eventStored doc sender contract mechRequestEventName id ∨
          ∃ ev ∈ logs, ev.sender = sender ∧ ev.requestId = id ∧
            startingBlockOf doc sender contract mechRequestEventName earliest ≤
              ev.blockNumber ∧ ev.blockNumber ≤ L))
    ∧ (eventKeysNodup doc sender contract mechRequestEventName →
        eventKeysNodup (update_mech_events_db (chainOfLogs L logs bts ipfs) none
          contract mechRequestEventName earliest sender
          (update_mech_events_db (chainOfLogs L logs bts ipfs) (some k) contract
            mechRequestEventName earliest sender doc).1).1 sender contract
          mechRequestEventName) := by
  have hc : (0 : Int) < BLOCKS_CHUNK_SIZE := by decide
  have hth : (0 : Int) < EXCLUDED_BLOCKS_THRESHOLD := by decide
  obtain ⟨S, hS⟩ : ∃ S, startingBlockOf doc sender contract mechRequestEventName
      earliest = S := ⟨_, rfl⟩
  rw [hS] at hM1 hM2
  have hearliest : earliest ≤ S := by
    rw [← hS]
    exact le_max_left _ _
  have hLat : (chainOfLogs L logs bts ipfs).latestBlock = L := rfl
  have hE1 : adjustedEnding (chainOfLogs L logs bts ipfs).latestBlock S
      EXCLUDED_BLOCKS_THRESHOLD NUM_EXCLUDED_BLOCKS = L := by
    unfold adjustedEnding
    rw [hLat, if_neg (by omega)]
  have hklen2 : k < (rangeList S L BLOCKS_CHUNK_SIZE).length := by
    have h' := hklen
    simp only [scanFromBlocks] at h'
    rw [hS, hE1] at h'
    exact h'
  have hget : (rangeList S L BLOCKS_CHUNK_SIZE).get? k =
      some ((rangeList S L BLOCKS_CHUNK_SIZE).get ⟨k, hklen2⟩) :=
    List.get?_eq_get hklen2
  have hfbkval : (rangeList S L BLOCKS_CHUNK_SIZE).get ⟨k, hklen2⟩ =
      S + (k : Int) * BLOCKS_CHUNK_SIZE :=
    rangeList_get S L BLOCKS_CHUNK_SIZE k _ hget
  have hfbkmem : (rangeList S L BLOCKS_CHUNK_SIZE).get ⟨k, hklen2⟩ ∈
      rangeList S L BLOCKS_CHUNK_SIZE := List.get_mem _ _ _
  have hmltL : S + (k : Int) * BLOCKS_CHUNK_SIZE < L := by
    have := (rangeList_mem S L BLOCKS_CHUNK_SIZE _ hc hfbkmem).2
    rw [hfbkval] at this
    exact this
  have hSm : S < S + (k : Int) * BLOCKS_CHUNK_SIZE := by
    have hk1' : (1 : Int) ≤ (k : Int) := by exact_mod_cast hk1
    have := mul_le_mul_of_nonneg_right hk1' (le_of_lt hc)
    rw [one_mul] at this
    omega
  have htake : (rangeList S L BLOCKS_CHUNK_SIZE).take k =
      rangeList S (S + (k : Int) * BLOCKS_CHUNK_SIZE) BLOCKS_CHUNK_SIZE := by
    rw [rangeList_take L BLOCKS_CHUNK_SIZE hc k S]
    congr 1
    omega
  have halign : ∀ fb ∈ rangeList S (S + (k : Int) * BLOCKS_CHUNK_SIZE)
      BLOCKS_CHUNK_SIZE,
      min (fb + BLOCKS_CHUNK_SIZE) L =
        min (fb + BLOCKS_CHUNK_SIZE) (S + (k : Int) * BLOCKS_CHUNK_SIZE) := by
    intro fb hmem
    obtain ⟨i, hgeti⟩ := List.mem_iff_get?.mp hmem
    have hval := rangeList_get S (S + (k : Int) * BLOCKS_CHUNK_SIZE)
      BLOCKS_CHUNK_SIZE i fb hgeti
    have hblt := (rangeList_mem S (S + (k : Int) * BLOCKS_CHUNK_SIZE)
      BLOCKS_CHUNK_SIZE fb hc hmem).2
    have hic : (i : Int) * BLOCKS_CHUNK_SIZE < (k : Int) * BLOCKS_CHUNK_SIZE := by
      omega
    have hik : (i : Int) < (k : Int) := lt_of_mul_lt_mul_right hic (le_of_lt hc)
    have hfbc : fb + BLOCKS_CHUNK_SIZE ≤ S + (k : Int) * BLOCKS_CHUNK_SIZE := by
      have h1 : (i : Int) + 1 ≤ (k : Int) := by omega
      have h2 : ((i : Int) + 1) * BLOCKS_CHUNK_SIZE ≤ (k : Int) * BLOCKS_CHUNK_SIZE :=
        mul_le_mul_of_nonneg_right h1 (le_of_lt hc)
      have h3 : ((i : Int) + 1) * BLOCKS_CHUNK_SIZE =
          (i : Int) * BLOCKS_CHUNK_SIZE + BLOCKS_CHUNK_SIZE := by ring
      omega
    omega
  obtain ⟨hflag1, hmem1⟩ := scan_range_mem L logs bts ipfs sender contract
    BLOCKS_CHUNK_SIZE hc hwf (S + (k : Int) * BLOCKS_CHUNK_SIZE)
    ((S + (k : Int) * BLOCKS_CHUNK_SIZE - S).toNat) S doc (le_refl _) hSm
  rcases hscan1 : scan_chunks (chainOfLogs L logs bts ipfs) sender contract
      mechRequestEventName BLOCKS_CHUNK_SIZE (S + (k : Int) * BLOCKS_CHUNK_SIZE)
      (rangeList S (S + (k : Int) * BLOCKS_CHUNK_SIZE) BLOCKS_CHUNK_SIZE) doc
    with ⟨doc1, b1⟩
  rw [hscan1] at hflag1 hmem1
  simp only [] at hflag1 hmem1
  subst hflag1
  have hscanL : scan_chunks (chainOfLogs L logs bts ipfs) sender contract
      mechRequestEventName BLOCKS_CHUNK_SIZE L
      ((rangeList S L BLOCKS_CHUNK_SIZE).take k) doc = (doc1, false) := by
    rw [htake, scan_eq_endings (chainOfLogs L logs bts ipfs) sender contract
      mechRequestEventName BLOCKS_CHUNK_SIZE L (S + (k : Int) * BLOCKS_CHUNK_SIZE)
      _ doc halign]
    exact hscan1
  have hrun1 : update_mech_events_core (chainOfLogs L logs bts ipfs) (some k)
      BLOCKS_CHUNK_SIZE EXCLUDED_BLOCKS_THRESHOLD NUM_EXCLUDED_BLOCKS contract
      mechRequestEventName earliest sender doc = (doc1, some ScanExc.cancelled) := by
    apply update_some_of_scan_ok
    · rw [hS, hE1]
      exact hklen2
    · rw [hS, hE1]
      exact hscanL
  have hdb1 : update_mech_events_db (chainOfLogs L logs bts ipfs) (some k) contract
      mechRequestEventName earliest sender doc = (doc1, some ScanExc.cancelled) :=
    hrun1
  have hlast1 : cursorLast doc1 sender contract mechRequestEventName =
      S + (k : Int) * BLOCKS_CHUNK_SIZE :=
    scan_last_of_no_err (chainOfLogs L logs bts ipfs) sender contract
      mechRequestEventName BLOCKS_CHUNK_SIZE (S + (k : Int) * BLOCKS_CHUNK_SIZE) hc
      S doc doc1 hSm hscan1
  have hS2 : startingBlockOf doc1 sender contract mechRequestEventName earliest =
      S + (k : Int) * BLOCKS_CHUNK_SIZE + 1 := by
    unfold startingBlockOf
    rw [hlast1]
    omega
  have hE2 : adjustedEnding (chainOfLogs L logs bts ipfs).latestBlock
      (S + (k : Int) * BLOCKS_CHUNK_SIZE + 1) EXCLUDED_BLOCKS_THRESHOLD
      NUM_EXCLUDED_BLOCKS = L := by
    unfold adjustedEnding
    rw [hLat, if_neg (by omega)]
  have hm1L : S + (k : Int) * BLOCKS_CHUNK_SIZE + 1 < L := by omega
  obtain ⟨hflag2, hmem2⟩ := scan_range_mem L logs bts ipfs sender contract
    BLOCKS_CHUNK_SIZE hc hwf L ((L - (S + (k : Int) * BLOCKS_CHUNK_SIZE + 1)).toNat)
    (S + (k : Int) * BLOCKS_CHUNK_SIZE + 1) doc1 (le_refl _) hm1L
  rcases hscan2 : scan_chunks (chainOfLogs L logs bts ipfs) sender contract
      mechRequestEventName BLOCKS_CHUNK_SIZE L
      (rangeList (S + (k : Int) * BLOCKS_CHUNK_SIZE + 1) L BLOCKS_CHUNK_SIZE) doc1
    with ⟨doc2, b2⟩
  rw [hscan2] at hflag2 hmem2
  simp only [] at hflag2 hmem2
  subst hflag2
  have hrun2 : update_mech_events_core (chainOfLogs L logs bts ipfs) none
      BLOCKS_CHUNK_SIZE EXCLUDED_BLOCKS_THRESHOLD NUM_EXCLUDED_BLOCKS contract
      mechRequestEventName earliest sender doc1 = (doc2, none) := by
    apply update_none_of_scan_ok
    rw [hS2, hE2]
    exact hscan2
  have hdb2 : update_mech_events_db (chainOfLogs L logs bts ipfs) none contract
      mechRequestEventName earliest sender doc1 = (doc2, none) := hrun2
  refine ⟨by rw [hdb1], ?_, ?_, ?_⟩
  · rw [hdb1]
    simp only []
    rw [hdb2]
  · intro id
    rw [hdb1]
    simp only []
    rw [hdb2]
    simp only []
    rw [hmem2 id, hmem1 id, hS]
    constructor
    · rintro ((h | ⟨ev, hlg, hsend, hid, hlo, hhi⟩) | ⟨ev, hlg, hsend, hid, hlo, hhi⟩)
      · exact Or.inl h
      · exact Or.inr ⟨ev, hlg, hsend, hid, by omega, by omega⟩
      · exact Or.inr ⟨ev, hlg, hsend, hid, by omega, by omega⟩
    · rintro (h | ⟨ev, hlg, hsend, hid, hlo, hhi⟩)
      · exact Or.inl (Or.inl h)
      · by_cases hb : ev.blockNumber ≤ S + (k : Int) * BLOCKS_CHUNK_SIZE
        · exact Or.inl (Or.inr ⟨ev, hlg, hsend, hid, by omega, by omega⟩)
        · exact Or.inr ⟨ev, hlg, hsend, hid, by omega, by omega⟩
  · intro hnd
    rw [hdb1]
    simp only []
    rw [hdb2]
    simp only []
    have hnd1 : eventKeysNodup doc1 sender contract mechRequestEventName := by
      have h1 := update_core_nodup (chainOfLogs L logs bts ipfs) (some k)
        BLOCKS_CHUNK_SIZE EXCLUDED_BLOCKS_THRESHOLD NUM_EXCLUDED_BLOCKS contract
        mechRequestEventName earliest sender doc hnd
      rw [hrun1] at h1
      simpa using h1
    have h2 := update_core_nodup (chainOfLogs L logs bts ipfs) none
      BLOCKS_CHUNK_SIZE EXCLUDED_BLOCKS_THRESHOLD NUM_EXCLUDED_BLOCKS contract
      mechRequestEventName earliest sender doc1 hnd1
    rw [hrun2] at h2
    simpa using h2

/-- C2 amended witness: cancelling after chunk [1, 5001] of the
four-chunk scan and re-running recovers event "B" observed at the
chain head, with the cancellation and the clean completion observable. -/
theorem C2_witness :
    (update_mech_events_db wChainC2 (some 1) "C" mechRequestEventName 1 "S"
      freshDoc).2 = some ScanExc.cancelled
    ∧ (update_mech_events_db wChainC2 none "C" mechRequestEventName 1 "S"
        (update_mech_events_db wChainC2 (some 1) "C" mechRequestEventName 1 "S"
          freshDoc).1).2 = none
    ∧ eventStored (update_mech_events_db wChainC2 none "C" mechRequestEventName 1
        "S" (update_mech_events_db wChainC2 (some 1) "C" mechRequestEventName 1 "S"
          freshDoc).1).1 "S" "C" mechRequestEventName "B" := by
  have h := C2_cancellation_recovery 15003 wLogs (fun b => b) (fun _ => none)
    "C" "S" 1 freshDoc 1 (by decide) (by decide) (by decide) (by decide) (by decide)
  refine ⟨h.1, h.2.1, (h.2.2.1 "B").mpr (Or.inr ?_)⟩
  exact ⟨⟨"Request", "B", "dB", "S", "hB", 15003⟩, by decide, rfl, rfl, by decide,
    by decide⟩
